import Mathlib

/-!
# A verification development for the HydroHub hash-chained ledger

A shallow embedding of `hydrohub/ledger.py` (together with the `Ledger` row
shape from `hydrohub/models.py` and the session discipline of `hydrohub/db.py`)
and proofs about it.

Modelling conventions:

* 32-bit machine words are `Nat` with explicit `% 2 ^ 32` where overflow
  matters; SHA-256 is implemented concretely over byte lists (`List Nat`,
  each element `< 256`).
* Python's `json.dumps(v, sort_keys=True, separators=(',', ':'))` and
  `json.loads` are modelled over an inductive `Json` type covering the
  JSON fragment the ledger manipulates (objects, arrays, strings, integers,
  booleans, null, and the float NaN, which CPython's `json` serializes as
  the bare token `NaN` under its default `allow_nan=True`).  General floats
  are outside the modelled fragment (no theorem below touches a fractional
  numeric literal).  A distinguished `Json.bad` constructor stands for a
  Python value `json.dumps` cannot serialize (a set, a datetime, ...), for
  which `dumps` raises `TypeError`.
* The database is a list of committed rows in `id` order (SQLite
  autoincrement ids are `1, 2, 3, ...`); a SQLAlchemy session is a pair of
  the committed rows and the pending (added, not yet committed) rows, with
  `commit` / `rollback` modelled explicitly, and with the `UNIQUE`
  constraint on `data_hash` enforced at commit time.
* The clock (`datetime.utcnow()`) is an explicit input.
-/

set_option maxRecDepth 100000
set_option maxHeartbeats 2000000

namespace HydroHub

/-! ## SHA-256 over byte lists (FIPS 180-4), words as `Nat` mod `2 ^ 32` -/

/-- Truncate to a 32-bit word. -/
def w32 (n : Nat) : Nat := n % 4294967296

/-- Right rotation of a 32-bit word. -/
def rotr (n x : Nat) : Nat := w32 ((x >>> n) ||| (x <<< (32 - n)))

/-- `Ch(x,y,z)`. -/
def shaCh (x y z : Nat) : Nat := (x &&& y) ^^^ ((x ^^^ 4294967295) &&& z)

/-- `Maj(x,y,z)`. -/
def shaMaj (x y z : Nat) : Nat := (x &&& y) ^^^ (x &&& z) ^^^ (y &&& z)

/-- `Σ₀`. -/
def bsig0 (x : Nat) : Nat := rotr 2 x ^^^ rotr 13 x ^^^ rotr 22 x

/-- `Σ₁`. -/
def bsig1 (x : Nat) : Nat := rotr 6 x ^^^ rotr 11 x ^^^ rotr 25 x

/-- `σ₀`. -/
def ssig0 (x : Nat) : Nat := rotr 7 x ^^^ rotr 18 x ^^^ (x >>> 3)

/-- `σ₁`. -/
def ssig1 (x : Nat) : Nat := rotr 17 x ^^^ rotr 19 x ^^^ (x >>> 10)

/-- The 64 SHA-256 round constants. -/
def shaK : List Nat :=
  [1116352408, 1899447441, 3049323471, 3921009573, 961987163, 1508970993,
   2453635748, 2870763221, 3624381080, 310598401, 607225278, 1426881987,
   1925078388, 2162078206, 2614888103, 3248222580, 3835390401, 4022224774,
   264347078, 604807628, 770255983, 1249150122, 1555081692, 1996064986,
   2554220882, 2821834349, 2952996808, 3210313671, 3336571891, 3584528711,
   113926993, 338241895, 666307205, 773529912, 1294757372, 1396182291,
   1695183700, 1986661051, 2177026350, 2456956037, 2730485921, 2820302411,
   3259730800, 3345764771, 3516065817, 3600352804, 4094571909, 275423344,
   430227734, 506948616, 659060556, 883997877, 958139571, 1322822218,
   1537002063, 1747873779, 1955562222, 2024104815, 2227730452, 2361852424,
   2428436474, 2756734187, 3204031479, 3329325298]

/-- The eight SHA-256 initial hash values. -/
def shaH0 : List Nat :=
  [1779033703, 3144134277, 1013904242, 2773480762,
   1359893119, 2600822924, 528734635, 1541459225]

/-- Big-endian 8-byte encoding of a (< 2^64) length field. -/
def be64 (n : Nat) : List Nat :=
  [(n >>> 56) % 256, (n >>> 48) % 256, (n >>> 40) % 256, (n >>> 32) % 256,
   (n >>> 24) % 256, (n >>> 16) % 256, (n >>> 8) % 256, n % 256]

/-- SHA-256 padding: `0x80`, zeros, then the 64-bit big-endian bit length. -/
def padBytes (msg : List Nat) : List Nat :=
  let L := msg.length
  msg ++ [0x80] ++ List.replicate ((64 - ((L + 9) % 64)) % 64) 0 ++ be64 (8 * L)

/-- Split a byte list into 64-byte blocks (`fuel` bounds the recursion depth
structurally; `chunks64` supplies enough). -/
def chunksAux : Nat → List Nat → List (List Nat)
  | 0, _ => []
  | _ + 1, [] => []
  | fuel + 1, a :: rest => (a :: rest.take 63) :: chunksAux fuel (rest.drop 63)

/-- Split a byte list into 64-byte blocks. -/
def chunks64 (l : List Nat) : List (List Nat) := chunksAux l.length l

/-- Big-endian packing of bytes into 32-bit words. -/
def bytesToWords : List Nat → List Nat
  | a :: b :: c :: d :: rest => (a * 16777216 + b * 65536 + c * 256 + d) :: bytesToWords rest
  | _ => []

/-- Extend the 16-word block to the 64-word message schedule (`k` more words). -/
def extendW (ws : List Nat) : Nat → List Nat
  | 0 => ws
  | k + 1 =>
      let t := ws.length
      extendW (ws ++ [w32 (ssig1 (ws.getD (t - 2) 0) + ws.getD (t - 7) 0 +
        ssig0 (ws.getD (t - 15) 0) + ws.getD (t - 16) 0)]) k

/-- One SHA-256 round, on the 8-word working state. -/
def shaRound (st : List Nat) (kw : Nat × Nat) : List Nat :=
  match st with
  | [a, b, c, d, e, f, g, h] =>
      let t1 := w32 (h + bsig1 e + shaCh e f g + kw.1 + kw.2)
      let t2 := w32 (bsig0 a + shaMaj a b c)
      [w32 (t1 + t2), a, b, c, w32 (d + t1), e, f, g]
  | other => other

/-- Compress one 64-byte block into the running 8-word state. -/
def compressBlock (st : List Nat) (block : List Nat) : List Nat :=
  let ws := extendW (bytesToWords block) 48
  let fin := (shaK.zip ws).foldl shaRound st
  List.zipWith (fun a b => w32 (a + b)) st fin

/-- SHA-256 of a byte list, as the 8 final 32-bit words. -/
def sha256Words (msg : List Nat) : List Nat :=
  (chunks64 (padBytes msg)).foldl compressBlock shaH0

/-- Lowercase hex digit. -/
def hexChar (k : Nat) : Char :=
  if k = 0 then '0' else if k = 1 then '1' else if k = 2 then '2' else if k = 3 then '3'
  else if k = 4 then '4' else if k = 5 then '5' else if k = 6 then '6' else if k = 7 then '7'
  else if k = 8 then '8' else if k = 9 then '9' else if k = 10 then 'a' else if k = 11 then 'b'
  else if k = 12 then 'c' else if k = 13 then 'd' else if k = 14 then 'e' else 'f'

/-- The 8 lowercase hex digits of a 32-bit word. -/
def word8Hex (x : Nat) : List Char :=
  [hexChar ((x >>> 28) % 16), hexChar ((x >>> 24) % 16), hexChar ((x >>> 20) % 16),
   hexChar ((x >>> 16) % 16), hexChar ((x >>> 12) % 16), hexChar ((x >>> 8) % 16),
   hexChar ((x >>> 4) % 16), hexChar (x % 16)]

/-- Lowercase hex SHA-256 digest of a byte list (`hashlib.sha256(...).hexdigest()`). -/
def sha256hex (msg : List Nat) : String :=
  String.mk ((sha256Words msg).map word8Hex).flatten

/-! ## UTF-8 encoding (`str.encode('utf-8')`) -/

/-- UTF-8 bytes of one Unicode scalar value. -/
def utf8EncodeChar (n : Nat) : List Nat :=
  if n < 128 then [n]
  else if n < 2048 then [192 + n / 64, 128 + n % 64]
  else if n < 65536 then [224 + n / 4096, 128 + n / 64 % 64, 128 + n % 64]
  else [240 + n / 262144, 128 + n / 4096 % 64, 128 + n / 64 % 64, 128 + n % 64]

/-- UTF-8 bytes of a string. -/
def utf8Encode (s : String) : List Nat :=
  (s.data.map (fun c => utf8EncodeChar c.toNat)).flatten

/-- Lowercase hex SHA-256 of the UTF-8 bytes of a string. -/
def sha256hexStr (s : String) : String := sha256hex (utf8Encode s)

/-! ## The JSON fragment the ledger manipulates

`Json.bad` stands for a Python value `json.dumps` cannot serialize (a set, a
datetime object, ...): serialization raises `TypeError` on it.  `Json.nan`
is the float NaN, which CPython serializes as the bare token `NaN` under the
default `allow_nan=True` and accepts back on parsing.  General (fractional)
floats are outside the modelled fragment. -/

inductive Json where
  | null
  | bool (b : Bool)
  | num (n : Int)
  | nan
  | str (s : String)
  | arr (elems : List Json)
  | obj (members : List (String × Json))
  | bad
deriving Repr

mutual

/-- Does the value contain a non-JSON-serializable leaf? -/
def hasBad : Json → Bool
  | .bad => true
  | .arr xs => hasBadList xs
  | .obj kvs => hasBadMembers kvs
  | _ => false
termination_by structural j => j

/-- `hasBad` over array elements. -/
def hasBadList : List Json → Bool
  | [] => false
  | x :: xs => hasBad x || hasBadList xs
termination_by structural l => l

/-- `hasBad` over object members. -/
def hasBadMembers : List (String × Json) → Bool
  | [] => false
  | (_, v) :: xs => hasBad v || hasBadMembers xs
termination_by structural l => l

end

/-- Code-point lexicographic `≤` on character lists: Python's string order,
and also SQLite's byte order on UTF-8 TEXT. -/
def strLeB : List Char → List Char → Bool
  | [], _ => true
  | _ :: _, [] => false
  | a :: as, b :: bs =>
    if a.toNat < b.toNat then true
    else if b.toNat < a.toNat then false
    else strLeB as bs

/-- `s <= t` on strings, by code points. -/
def strLe (s t : String) : Bool := strLeB s.data t.data

/-- Stable insertion into a key-sorted member list (ties keep original order). -/
def insertPair (p : String × Json) : List (String × Json) → List (String × Json)
  | [] => [p]
  | q :: rest => if strLe p.1 q.1 then p :: q :: rest else q :: insertPair p rest

/-- Stable insertion sort of object members by key (Python `sort_keys=True`;
Python compares strings by code points, as Lean's `String` order does). -/
def sortPairs : List (String × Json) → List (String × Json)
  | [] => []
  | p :: rest => insertPair p (sortPairs rest)

mutual

/-- Recursively sort all object member lists by key. -/
def canonJson : Json → Json
  | .arr xs => .arr (canonList xs)
  | .obj kvs => .obj (sortPairs (canonMembers kvs))
  | j => j
termination_by structural j => j

/-- `canonJson` over array elements. -/
def canonList : List Json → List Json
  | [] => []
  | x :: xs => canonJson x :: canonList xs
termination_by structural l => l

/-- `canonJson` over object members. -/
def canonMembers : List (String × Json) → List (String × Json)
  | [] => []
  | (k, v) :: xs => (k, canonJson v) :: canonMembers xs
termination_by structural l => l

end

/-! ## Serialization (`json.dumps(v, sort_keys=True, separators=(',', ':'))`) -/

/-- Four lowercase hex digits (the `%04x` of a `\uXXXX` escape). -/
def hex4 (n : Nat) : List Char :=
  [hexChar (n / 4096 % 16), hexChar (n / 256 % 16), hexChar (n / 16 % 16), hexChar (n % 16)]

/-- One character of a JSON string under `ensure_ascii=True`: printable ASCII
except quote and backslash is literal; `\b \t \n \f \r \" \\` are short
escapes; everything else is `\uXXXX`, astral characters as a surrogate pair. -/
def escapeChar (c : Char) : List Char :=
  if c.toNat = 34 then ['\\', '"']
  else if c.toNat = 92 then ['\\', '\\']
  else if c.toNat = 8 then ['\\', 'b']
  else if c.toNat = 9 then ['\\', 't']
  else if c.toNat = 10 then ['\\', 'n']
  else if c.toNat = 12 then ['\\', 'f']
  else if c.toNat = 13 then ['\\', 'r']
  else if 32 ≤ c.toNat && c.toNat ≤ 126 then [c]
  else if c.toNat < 65536 then '\\' :: 'u' :: hex4 c.toNat
  else ('\\' :: 'u' :: hex4 (55296 + (c.toNat - 65536) / 1024)) ++
       ('\\' :: 'u' :: hex4 (56320 + (c.toNat - 65536) % 1024))

/-- A JSON string literal, quotes included. -/
def escapeString (s : String) : List Char :=
  '"' :: (s.data.map escapeChar).flatten ++ ['"']

/-- Decimal digits, recursion made structural on a fuel bound. -/
def natCharsAux : Nat → Nat → List Char
  | 0, _ => []
  | fuel + 1, n => if n < 10 then [hexChar n] else natCharsAux fuel (n / 10) ++ [hexChar (n % 10)]

/-- Decimal digits of a natural number (no leading zeros; `"0"` for zero). -/
def natChars (n : Nat) : List Char := natCharsAux (n + 1) n

/-- `str(int)`: decimal, `-` sign for negatives. -/
def intChars : Int → List Char
  | .ofNat n => natChars n
  | .negSucc m => '-' :: natChars (m + 1)

mutual

/-- Serialize a value with separators `(',', ':')` and no whitespace, member
lists emitted in stored order (`dumpsCanonical` sorts first). -/
def plainChars : Json → List Char
  | .null => "null".data
  | .bool true => "true".data
  | .bool false => "false".data
  | .num i => intChars i
  | .nan => "NaN".data
  | .str s => escapeString s
  | .arr xs => '[' :: (plainElems xs ++ [']'])
  | .obj kvs => '{' :: (plainMembers kvs ++ ['}'])
  | .bad => []
termination_by structural j => j

/-- Comma-separated array elements. -/
def plainElems : List Json → List Char
  | [] => []
  | [x] => plainChars x
  | x :: xs => plainChars x ++ ',' :: plainElems xs
termination_by structural l => l

/-- Comma-separated `"key":value` members. -/
def plainMembers : List (String × Json) → List Char
  | [] => []
  | [(k, v)] => escapeString k ++ ':' :: plainChars v
  | (k, v) :: xs => escapeString k ++ ':' :: plainChars v ++ ',' :: plainMembers xs
termination_by structural l => l

end

/-- `json.dumps(v, sort_keys=True, separators=(',', ':'))`: `none` models the
`TypeError` raised on a non-serializable value, otherwise the canonical text. -/
def dumpsCanonical (j : Json) : Option String :=
  if hasBad j then none else some (String.mk (plainChars (canonJson j)))

/-! ## Parsing (`json.loads`)

Faithful to CPython's `json` on the modelled fragment.  Known, deliberate
deviations, never exercised by a theorem below: fractional/exponent numeric
literals and the `Infinity` constants parse to floats in CPython and are
rejected here, and a lone surrogate `\uXXXX` escape (which CPython keeps as
an unpaired surrogate character) is rejected, since Lean strings only hold
Unicode scalar values. -/

/-- JSON insignificant whitespace. -/
def isWs (c : Char) : Bool := c = ' ' || c = '\t' || c = '\n' || c = '\r'

/-- Drop leading whitespace. -/
def skipWs : List Char → List Char
  | [] => []
  | c :: cs => if isWs c then skipWs cs else c :: cs

/-- Value of a hex digit (both cases, as `int(s, 16)` accepts). -/
def hexVal (c : Char) : Option Nat :=
  if '0' ≤ c && c ≤ '9' then some (c.toNat - 48)
  else if 'a' ≤ c && c ≤ 'f' then some (c.toNat - 87)
  else if 'A' ≤ c && c ≤ 'F' then some (c.toNat - 55)
  else none

/-- The value of four hex digits. -/
def combineHex (ha hb hc hd : Nat) : Nat := ha * 4096 + hb * 256 + hc * 16 + hd

/-- After a high surrogate, a `\uXXXX` low surrogate must follow; the pair
combines into one astral character. -/
def parseLowSurrogate (n : Nat) : List Char → Option (Char × List Char)
  | '\\' :: 'u' :: a2 :: b2 :: c3 :: d2 :: cs4 =>
    match hexVal a2, hexVal b2, hexVal c3, hexVal d2 with
    | some h1, some h2, some h3, some h4 =>
      if 56320 ≤ combineHex h1 h2 h3 h4 && combineHex h1 h2 h3 h4 < 57344 then
        some (Char.ofNat (65536 + (n - 55296) * 1024 + (combineHex h1 h2 h3 h4 - 56320)), cs4)
      else none
    | _, _, _, _ => none
  | _ => none

/-- Interpret the value of a `\uXXXX` escape: a high surrogate awaits its
partner, a lone low surrogate is rejected (see the fragment note above),
anything else is the character itself. -/
def parseUHex (n : Nat) (cs3 : List Char) : Option (Char × List Char) :=
  if 55296 ≤ n && n < 56320 then parseLowSurrogate n cs3
  else if 56320 ≤ n && n < 57344 then none
  else some (Char.ofNat n, cs3)

/-- A `\u` escape: four hex digits, then `parseUHex`. -/
def parseUEscape : List Char → Option (Char × List Char)
  | a :: b :: c2 :: d :: cs3 =>
    match hexVal a, hexVal b, hexVal c2, hexVal d with
    | some ha, some hb, some hc, some hd => parseUHex (combineHex ha hb hc hd) cs3
    | _, _, _, _ => none
  | _ => none

/-- Decode one escape sequence (the part after the backslash): the decoded
character and the remaining input. -/
def parseEscape : List Char → Option (Char × List Char)
  | [] => none
  | e :: cs =>
    if e = '"' then some ('"', cs)
    else if e = '\\' then some ('\\', cs)
    else if e = '/' then some ('/', cs)
    else if e = 'b' then some (Char.ofNat 8, cs)
    else if e = 'f' then some (Char.ofNat 12, cs)
    else if e = 'n' then some (Char.ofNat 10, cs)
    else if e = 'r' then some (Char.ofNat 13, cs)
    else if e = 't' then some (Char.ofNat 9, cs)
    else if e = 'u' then parseUEscape cs
    else none

/-- String body after the opening quote (fueled; one unit per decoded
character suffices): the decoded characters and the input after the closing
quote. -/
def parseStrAux : Nat → List Char → Option (List Char × List Char)
  | 0, _ => none
  | _ + 1, [] => none
  | fuel + 1, c :: cs =>
    if c = '"' then some ([], cs)
    else if c = '\\' then
      match parseEscape cs with
      | none => none
      | some (ch, cs2) => (parseStrAux fuel cs2).map (fun p => (ch :: p.1, p.2))
    else if c.toNat < 32 then none
    else (parseStrAux fuel cs).map (fun p => (c :: p.1, p.2))

/-- String body after the opening quote. -/
def parseStringBody (cs : List Char) : Option (List Char × List Char) :=
  parseStrAux (cs.length + 1) cs

/-- Decimal digit value. -/
def digitVal (c : Char) : Option Nat :=
  if '0' ≤ c && c ≤ '9' then some (c.toNat - 48) else none

/-- Accumulate a run of decimal digits. -/
def parseDigitsAux (acc : Nat) : List Char → Nat × List Char
  | [] => (acc, [])
  | c :: cs =>
    match digitVal c with
    | some d => parseDigitsAux (acc * 10 + d) cs
    | none => (acc, c :: cs)

/-- An unsigned JSON integer: `0` or a nonzero-leading digit run (the
`(?:0|[1-9]\d*)` of the scanner's number regex). -/
def parseNat : List Char → Option (Nat × List Char)
  | [] => none
  | c :: cs =>
    match digitVal c with
    | none => none
    | some d =>
      if d = 0 then
        match cs with
        | c2 :: _ => if (digitVal c2).isSome then none else some (0, cs)
        | [] => some (0, [])
      else some (parseDigitsAux d cs)

/-- No fraction or exponent follows (those continue into a float literal,
outside the modelled fragment). -/
def noFloatFollow : List Char → Bool
  | c :: _ => !(c = '.' || c = 'e' || c = 'E')
  | [] => true

/-- A signed JSON integer literal. -/
def parseNumber (cs : List Char) : Option (Int × List Char) :=
  match cs with
  | [] => none
  | c :: cs2 =>
    if c = '-' then
      match parseNat cs2 with
      | some (n, r) => if noFloatFollow r then some (-(n : Int), r) else none
      | none => none
    else
      match parseNat (c :: cs2) with
      | some (n, r) => if noFloatFollow r then some ((n : Int), r) else none
      | none => none

/-- Parse a constant token (`null`, `true`, `false`, `NaN`) or an integer
literal starting at `c :: cs2`. -/
def parseConst (c : Char) (cs2 : List Char) : Option (Json × List Char) :=
  if c = 'n' then
    match cs2 with
    | 'u' :: 'l' :: 'l' :: r => some (.null, r)
    | _ => none
  else if c = 't' then
    match cs2 with
    | 'r' :: 'u' :: 'e' :: r => some (.bool true, r)
    | _ => none
  else if c = 'f' then
    match cs2 with
    | 'a' :: 'l' :: 's' :: 'e' :: r => some (.bool false, r)
    | _ => none
  else if c = 'N' then
    match cs2 with
    | 'a' :: 'N' :: r => some (.nan, r)
    | _ => none
  else (parseNumber (c :: cs2)).map (fun p => (.num p.1, p.2))

mutual

/-- Parse one JSON value (fuel-indexed; `loads` supplies ample fuel). -/
def parseVal : Nat → List Char → Option (Json × List Char)
  | 0, _ => none
  | fuel + 1, cs =>
    match skipWs cs with
    | [] => none
    | c :: cs2 =>
      if c = '{' then
        match skipWs cs2 with
        | [] => none
        | c2 :: cs3 =>
          if c2 = '}' then some (.obj [], cs3)
          else (parseMembers fuel (c2 :: cs3)).map (fun p => (.obj p.1, p.2))
      else if c = '[' then
        match skipWs cs2 with
        | [] => none
        | c2 :: cs3 =>
          if c2 = ']' then some (.arr [], cs3)
          else (parseElems fuel (c2 :: cs3)).map (fun p => (.arr p.1, p.2))
      else if c = '"' then
        (parseStringBody cs2).map (fun p => (.str (String.mk p.1), p.2))
      else parseConst c cs2
termination_by structural fuel => fuel

/-- Parse the (nonempty) member list of an object, consuming the closing
brace. -/
def parseMembers : Nat → List Char → Option (List (String × Json) × List Char)
  | 0, _ => none
  | fuel + 1, cs =>
    match skipWs cs with
    | '"' :: cs2 =>
      match parseStringBody cs2 with
      | none => none
      | some (k, cs3) =>
        match skipWs cs3 with
        | ':' :: cs4 =>
          match parseVal fuel cs4 with
          | none => none
          | some (v, cs5) =>
            match skipWs cs5 with
            | ',' :: cs6 => (parseMembers fuel cs6).map (fun p => ((String.mk k, v) :: p.1, p.2))
            | '}' :: cs6 => some ([(String.mk k, v)], cs6)
            | _ => none
        | _ => none
    | _ => none
termination_by structural fuel => fuel

/-- Parse the (nonempty) element list of an array, consuming the closing
bracket. -/
def parseElems : Nat → List Char → Option (List Json × List Char)
  | 0, _ => none
  | fuel + 1, cs =>
    match parseVal fuel cs with
    | none => none
    | some (v, cs2) =>
      match skipWs cs2 with
      | ',' :: cs3 => (parseElems fuel cs3).map (fun p => (v :: p.1, p.2))
      | ']' :: cs3 => some ([v], cs3)
      | _ => none
termination_by structural fuel => fuel

end

/-- `json.loads`: parse one value, demand only whitespace remains. -/
def loads (s : String) : Option Json :=
  match parseVal (s.data.length + 1) s.data with
  | some (v, rest) => if skipWs rest = [] then some v else none
  | none => none

/-! ## Python runtime errors surfacing in the ledger paths -/

/-- The Python exceptions the modelled paths can raise: `TypeError` (from
`json.dumps` on a non-serializable value, or from `in` on a non-container)
and a storage-layer failure (I/O fault or `UNIQUE` violation at commit). -/
inductive PyError where
  | typeError
  | storageError
deriving DecidableEq, Repr

instance {ε α : Type} [DecidableEq ε] [DecidableEq α] : DecidableEq (Except ε α) := fun x y =>
  match x, y with
  | .ok a, .ok b =>
    if h : a = b then .isTrue (congrArg Except.ok h)
    else .isFalse (fun he => by injection he with h2; exact h h2)
  | .error a, .error b =>
    if h : a = b then .isTrue (congrArg Except.error h)
    else .isFalse (fun he => by injection he with h2; exact h h2)
  | .ok _, .error _ => .isFalse (fun he => Except.noConfusion he)
  | .error _, .ok _ => .isFalse (fun he => Except.noConfusion he)

/-- `needle` starts `hay`. -/
def startsW : List Char → List Char → Bool
  | [], _ => true
  | _ :: _, [] => false
  | a :: as, b :: bs => a = b && startsW as bs

/-- Python substring test (`needle in hay` for strings). -/
def strContains (needle : List Char) : List Char → Bool
  | [] => needle.isEmpty
  | c :: cs => startsW needle (c :: cs) || strContains needle cs

/-- Python's `k in v` for a parsed JSON value: key membership for a dict,
element equality for a list, substring for a string, `TypeError` otherwise. -/
def pyContainsStr (v : Json) (k : String) : Except PyError Bool :=
  match v with
  | .obj kvs => .ok (kvs.any (fun p => p.1 = k))
  | .arr xs => .ok (xs.any (fun x => match x with | .str s => s = k | _ => false))
  | .str s => .ok (strContains k.data s.data)
  | _ => .error .typeError

/-! ## The ledger store (`models.Ledger`, ids from SQLite autoincrement) -/

/-- One row of the `ledger` table (`models.py`, class `Ledger`). -/
structure LedgerRow where
  id : Nat
  timestamp : String
  prev_hash : String
  data_hash : String
  actor_id : Option Int
  action_type : String
  data_text : String
deriving DecidableEq, Repr

/-- The genesis predecessor value `'0' * 64`. -/
def genesisHash : String := String.mk (List.replicate 64 '0')

/-- The database: committed rows in ascending `id` order. -/
abbrev LedgerDb := List LedgerRow

/-- `get_last_hash`: the `data_hash` of the row with the highest `id`, or the
genesis value on an empty table. -/
def getLastHash (db : LedgerDb) : String :=
  match db.getLast? with
  | some e => e.data_hash
  | none => genesisHash

/-! ## Chain Hasher (`create_data_hash`) -/

/-- The f-string fragment `{actor_id or ''}`: `None` and `0` are falsy and
render empty; any other int renders as its decimal `str`. -/
def actorStr : Option Int → String
  | none => ""
  | some a => if a = 0 then "" else toString a

/-- `create_data_hash(timestamp, prev_hash, actor_id, data_text)`:
lowercase hex SHA-256 of the UTF-8 bytes of
`f"{timestamp}|{prev_hash}|{actor_id or ''}|{data_text}"`. -/
def createDataHash (timestamp prev_hash : String) (actor_id : Option Int)
    (data_text : String) : String :=
  sha256hexStr (timestamp ++ "|" ++ prev_hash ++ "|" ++ actorStr actor_id ++ "|" ++ data_text)

/-- The digest formula exactly as the specification states it:
`sha256_hex(f"{timestamp}|{prev_digest}|{actor_id or ''}|{canonical_envelope_json}")`,
hex-encoded lowercase. -/
def specDigest (timestamp prev_digest : String) (actor_ref : Option Int)
    (canonical_text : String) : String :=
  sha256hexStr (timestamp ++ "|" ++ prev_digest ++ "|" ++
    (match actor_ref with
     | none => ""
     | some a => if a = 0 then "" else toString a) ++ "|" ++ canonical_text)

/-! ## Append Engine (`add_ledger_entry`) -/

/-- The `ledger_data` dict of `add_ledger_entry`, in insertion order
(Python dicts preserve it; `dumpsCanonical` sorts the keys). -/
def ledgerEnvelope (action_type : String) (data_dict : Json)
    (human_message timestamp : String) : Json :=
  .obj [("action_type", .str action_type), ("payload", data_dict),
        ("human_message", .str human_message), ("timestamp", .str timestamp)]

/-- A SQLAlchemy session over the ledger table: committed rows (visible to
every other session) plus rows added but not yet committed. -/
structure DbSession where
  committed : LedgerDb
  pending : List LedgerRow

/-- `session.add(entry)`. -/
def sessionAdd (s : DbSession) (e : LedgerRow) : DbSession :=
  { s with pending := s.pending ++ [e] }

/-- `session.rollback()`: pending work is discarded, committed rows stay. -/
def sessionRollback (s : DbSession) : DbSession :=
  { s with pending := [] }

/-- `session.commit()`: fails on an injected I/O fault (`ioOk = false`) or a
`UNIQUE(data_hash)` violation, otherwise makes the pending rows visible. -/
def sessionCommit (ioOk : Bool) (s : DbSession) : Except PyError DbSession :=
  if !ioOk then .error .storageError
  else if s.pending.any (fun e => s.committed.any (fun c => c.data_hash = e.data_hash)) then
    .error .storageError
  else .ok { committed := s.committed ++ s.pending, pending := [] }

/-- `add_ledger_entry(actor_id, action_type, data_dict, human_message)`.
`ioOk` injects a storage fault at commit; `now` is the captured clock
reading (`datetime.utcnow().isoformat() + 'Z'`).  Returns the visible table
after the call together with the returned digest or the raised error
(`except: session.rollback(); raise`). -/
def addLedgerEntry (ioOk : Bool) (actor_id : Option Int) (action_type : String)
    (data_dict : Json) (human_message : String) (now : String) (db : LedgerDb) :
    LedgerDb × Except PyError String :=
  let session : DbSession := ⟨db, []⟩
  let prev_hash := getLastHash db
  let timestamp := now
  match dumpsCanonical (ledgerEnvelope action_type data_dict human_message timestamp) with
  | none => ((sessionRollback session).committed, .error .typeError)
  | some data_text =>
    let data_hash := createDataHash timestamp prev_hash actor_id data_text
    let entry : LedgerRow :=
      { id := db.length + 1, timestamp := timestamp, prev_hash := prev_hash,
        data_hash := data_hash, actor_id := actor_id, action_type := action_type,
        data_text := data_text }
    let s1 := sessionAdd session entry
    match sessionCommit ioOk s1 with
    | .ok s2 => (s2.committed, .ok data_hash)
    | .error e => ((sessionRollback s1).committed, .error e)

/-- The arguments of one `add_ledger_entry` call, clock reading included. -/
structure AppendCall where
  actor_id : Option Int
  action_type : String
  data_dict : Json
  human_message : String
  now : String

/-- A chain produced solely by successive (serialized) append calls. -/
def appendAll (calls : List AppendCall) (db : LedgerDb) : LedgerDb :=
  calls.foldl
    (fun d c => (addLedgerEntry true c.actor_id c.action_type c.data_dict c.human_message c.now d).1)
    db

/-! ## Verifier (`verify_ledger`) -/

/-- One inconsistency record, as the dicts `verify_ledger` appends. -/
inductive Discrepancy where
  | prevHashMismatch (entry_id : Nat) (expected actual : String)
  | hashMismatch (entry_id : Nat) (expected actual : String)
  | invalidJsonStructure (entry_id : Nat) (data : String)
  | invalidJson (entry_id : Nat) (data : String)
deriving DecidableEq, Repr

/-- The `entry_id` field of a discrepancy record. -/
def Discrepancy.entryId : Discrepancy → Nat
  | .prevHashMismatch i _ _ => i
  | .hashMismatch i _ _ => i
  | .invalidJsonStructure i _ => i
  | .invalidJson i _ => i

/-- `entry.data_text[:100] + '...' if len(entry.data_text) > 100 else ...`
(Python counts and slices code points, i.e. the `data` characters). -/
def truncData (s : String) : String :=
  if s.data.length > 100 then String.mk (s.data.take 100) ++ "..." else s

/-- The `# Verify JSON structure` block: `json.loads`, then
`'action_type' not in data or 'payload' not in data` (which raises
`TypeError` when `data` is not a container — only `json.JSONDecodeError`
is caught). -/
def jsonStructureChecks (e : LedgerRow) : Except PyError (List Discrepancy) :=
  match loads e.data_text with
  | none => .ok [.invalidJson e.id (truncData e.data_text)]
  | some data =>
    match pyContainsStr data "action_type" with
    | .error err => .error err
    | .ok hasAt =>
      if !hasAt then .ok [.invalidJsonStructure e.id (truncData e.data_text)]
      else
        match pyContainsStr data "payload" with
        | .error err => .error err
        | .ok hasPl =>
          if !hasPl then .ok [.invalidJsonStructure e.id (truncData e.data_text)]
          else .ok []

/-- The checks of one loop iteration of `verify_ledger`, in source order:
predecessor link, recomputed digest, JSON structure.  An uncaught exception
discards the discrepancies of the same iteration. -/
def verifyEntry (expected_prev : String) (e : LedgerRow) :
    Except PyError (List Discrepancy) :=
  let prevDiscs :=
    if e.prev_hash ≠ expected_prev then [.prevHashMismatch e.id expected_prev e.prev_hash] else []
  let computed := createDataHash e.timestamp e.prev_hash e.actor_id e.data_text
  let hashDiscs :=
    if e.data_hash ≠ computed then [.hashMismatch e.id computed e.data_hash] else []
  match jsonStructureChecks e with
  | .error err => .error err
  | .ok js => .ok (prevDiscs ++ hashDiscs ++ js)

/-- The verification walk: after each entry the expected predecessor becomes
that entry's *stored* digest (source line `expected_prev_hash = entry.data_hash`).
An exception raised at any entry propagates, losing the list built so far. -/
def verifyFrom (expected_prev : String) : LedgerDb → Except PyError (List Discrepancy)
  | [] => .ok []
  | e :: rest =>
    match verifyEntry expected_prev e with
    | .error err => .error err
    | .ok ds =>
      match verifyFrom e.data_hash rest with
      | .error err => .error err
      | .ok later => .ok (ds ++ later)

/-- `verify_ledger()`: walk all rows in ascending `id` order starting from
the genesis value. -/
def verifyLedger (db : LedgerDb) : Except PyError (List Discrepancy) :=
  verifyFrom genesisHash db

/-! ## Query/Filter Service (`get_ledger_entries`) -/

/-- `get_ledger_entries(limit, offset, action_type, actor_id)`: descending
`id` order, optional filters (skipped for falsy values and the `"All"`
sentinel, and for non-positive actor ids), then offset/limit pagination. -/
def getLedgerEntries (limit offset : Nat) (action_type : Option String)
    (actor_id : Option Int) (db : LedgerDb) : List LedgerRow :=
  let q := db.reverse
  let q :=
    match action_type with
    | some t => if t ≠ "" && t ≠ "All" then q.filter (fun (e : LedgerRow) => e.action_type == t) else q
    | none => q
  let q :=
    match actor_id with
    | some a => if 0 < a then q.filter (fun (e : LedgerRow) => e.actor_id == some a) else q
    | none => q
  (q.drop offset).take limit

/-! ## Proof Exporter (`export_ledger_proof`) -/

/-- Total canonical serialization, for values known to contain no `bad` leaf
(every value `export_ledger_proof` builds is such). -/
def dumpsTotal (j : Json) : String := String.mk (plainChars (canonJson j))

/-- The timestamp-range filter of the export query (SQLite compares the
`timestamp` TEXT column byte-wise, which on UTF-8 is code-point order). -/
def exportFilter (start_date end_date : Option String) (db : LedgerDb) : LedgerDb :=
  let q := db
  let q :=
    match start_date with
    | some sd => if sd ≠ "" then q.filter (fun e => strLe sd e.timestamp) else q
    | none => q
  match end_date with
  | some ed => if ed ≠ "" then q.filter (fun e => strLe e.timestamp ed) else q
  | none => q

/-- One exported entry dict. -/
def jsonOfRow (e : LedgerRow) : Json :=
  .obj [("id", .num (e.id : Int)), ("timestamp", .str e.timestamp),
        ("prev_hash", .str e.prev_hash), ("data_hash", .str e.data_hash),
        ("actor_id", match e.actor_id with | some a => .num a | none => .null),
        ("action_type", .str e.action_type), ("data_text", .str e.data_text)]

/-- An optional string parameter as it lands in the proof dict. -/
def optStrJson : Option String → Json
  | some s => .str s
  | none => .null

/-- The `proof` dict as built before `proof_hash` is attached. -/
def proofBody (export_timestamp : String) (start_date end_date : Option String)
    (db : LedgerDb) : Json :=
  let entries := exportFilter start_date end_date db
  .obj [("export_timestamp", .str export_timestamp),
        ("filter_start_date", optStrJson start_date),
        ("filter_end_date", optStrJson end_date),
        ("total_entries", .num (entries.length : Int)),
        ("entries", .arr (entries.map jsonOfRow)),
        ("verification_info",
          .obj [("hash_algorithm", .str "SHA-256"),
                ("payload_format", .str "timestamp|prev_hash|actor_id|data_text")])]

/-- The value `export_ledger_proof` returns: the proof dict (pre-hash form)
and the `proof_hash` over its canonical serialization. -/
structure LedgerProof where
  body : Json
  proof_hash : String

/-- `export_ledger_proof(start_date, end_date)` at clock reading `now`
(`proof['export_timestamp'] = datetime.utcnow().isoformat() + 'Z'`). -/
def exportLedgerProof (now : String) (start_date end_date : Option String)
    (db : LedgerDb) : LedgerProof :=
  let body := proofBody now start_date end_date db
  { body := body, proof_hash := sha256hexStr (dumpsTotal body) }

/-! ## Interleaved appends

`add_ledger_entry` reads the chain head through `get_last_hash` (which opens
and closes its *own* session, source lines 14-21) and only later inserts and
commits in a second session; `db.py` creates the engine with
`check_same_thread=False` and takes no lock.  The two points are therefore
separately schedulable steps of an in-flight append, and a schedule is a
list of such steps. -/

/-- One atomic step of an in-flight `add_ledger_entry`: its `get_last_hash`
read, or its insert-and-commit. -/
inductive ConcStep where
  | readLast (i : Nat)
  | commitEntry (i : Nat)

/-- Shared state: the committed table plus each call's head-read, if done. -/
structure ConcState where
  db : LedgerDb
  reads : List (Option String)

/-- Execute one step of call `i` of `calls`. -/
def concStep (calls : List AppendCall) (st : ConcState) : ConcStep → ConcState
  | .readLast i => { st with reads := st.reads.set i (some (getLastHash st.db)) }
  | .commitEntry i =>
    match st.reads.getD i none with
    | none => st
    | some prev =>
      match calls.get? i with
      | none => st
      | some c =>
        match dumpsCanonical (ledgerEnvelope c.action_type c.data_dict c.human_message c.now) with
        | none => st
        | some data_text =>
          let dh := createDataHash c.now prev c.actor_id data_text
          let row : LedgerRow :=
            { id := st.db.length + 1, timestamp := c.now, prev_hash := prev,
              data_hash := dh, actor_id := c.actor_id, action_type := c.action_type,
              data_text := data_text }
          if st.db.any (fun e => e.data_hash = dh) then st
          else { st with db := st.db ++ [row] }

/-- Run a schedule of steps over an initially empty chain. -/
def runSchedule (calls : List AppendCall) (steps : List ConcStep) : ConcState :=
  steps.foldl (concStep calls) ⟨[], List.replicate calls.length none⟩

/-- Replace the row at position `i` (0-based) by a mutated copy: the direct
store manipulation a tamper scenario performs. -/
def updateRow : LedgerDb → Nat → (LedgerRow → LedgerRow) → LedgerDb
  | [], _, _ => []
  | e :: rest, 0, f => f e :: rest
  | e :: rest, i + 1, f => e :: updateRow rest i f

/-! ## The digest is 64 lowercase hex characters -/

/-- The lowercase hex alphabet. -/
def hexAlphabet : List Char := "0123456789abcdef".data

theorem hexChar_mem_hexAlphabet (k : Nat) : hexChar k ∈ hexAlphabet := by
  by_cases h : k < 16
  · interval_cases k <;> decide
  · unfold hexChar
    repeat rw [if_neg (by omega)]
    decide

theorem shaRound_length (st : List Nat) (kw : Nat × Nat) :
    (shaRound st kw).length = st.length := by
  unfold shaRound
  split <;> simp

theorem foldl_shaRound_length (l : List (Nat × Nat)) (st : List Nat) :
    (l.foldl shaRound st).length = st.length := by
  induction l generalizing st with
  | nil => rfl
  | cons kw rest ih => simp [List.foldl_cons, ih, shaRound_length]

theorem compressBlock_length (st block : List Nat) :
    (compressBlock st block).length = st.length := by
  simp [compressBlock, List.length_zipWith, foldl_shaRound_length]

theorem foldl_compressBlock_length (blocks : List (List Nat)) (st : List Nat) :
    (blocks.foldl compressBlock st).length = st.length := by
  induction blocks generalizing st with
  | nil => rfl
  | cons b rest ih => simp [List.foldl_cons, ih, compressBlock_length]

theorem sha256Words_length (msg : List Nat) : (sha256Words msg).length = 8 := by
  unfold sha256Words
  rw [foldl_compressBlock_length]
  rfl

theorem word8Hex_subset_hex {c : Char} {x : Nat} (h : c ∈ word8Hex x) :
    c ∈ hexAlphabet := by
  simp only [word8Hex, List.mem_cons, List.not_mem_nil, or_false] at h
  rcases h with rfl | rfl | rfl | rfl | rfl | rfl | rfl | rfl <;>
    exact hexChar_mem_hexAlphabet _

theorem sha256hex_shape (msg : List Nat) :
    (sha256hex msg).length = 64 ∧
    ((sha256hex msg).data.all hexAlphabet.contains) = true := by
  have hlen := sha256Words_length msg
  unfold sha256hex
  rcases hws : sha256Words msg with _ | ⟨a, _ | ⟨b, _ | ⟨c, _ | ⟨d, _ | ⟨e, _ | ⟨f, _ | ⟨g,
      _ | ⟨h8, _ | ⟨i, t⟩⟩⟩⟩⟩⟩⟩⟩⟩ <;> rw [hws] at hlen <;> simp at hlen
  constructor
  · simp [String.length, word8Hex]
  · rw [List.all_eq_true]
    intro ch hch
    apply List.elem_eq_true_of_mem
    have : ch ∈ word8Hex a ∨ ch ∈ word8Hex b ∨ ch ∈ word8Hex c ∨ ch ∈ word8Hex d ∨
        ch ∈ word8Hex e ∨ ch ∈ word8Hex f ∨ ch ∈ word8Hex g ∨ ch ∈ word8Hex h8 := by
      simpa [String.data] using hch
    rcases this with h' | h' | h' | h' | h' | h' | h' | h' <;>
      exact word8Hex_subset_hex h'

/-! ## Parsing round-trips serialization

The development below proves that the `loads` model parses `dumpsCanonical`
output back to the (canonicalized) value — the fact `verify_ledger`'s
structure check depends on for untampered entries. -/

/-- The characters that may legally follow a serialized value: nothing
(top level), or a separator/closer. -/
def boundary : List Char → Bool
  | [] => true
  | c :: _ => c = ',' || c = ']' || c = '}'

theorem charToNat_inj {c d : Char} (h : c.toNat = d.toNat) : c = d := by
  apply Char.eq_of_val_eq
  apply UInt32.eq_of_toBitVec_eq
  exact BitVec.eq_of_toNat_eq h

theorem char_scalar (c : Char) :
    c.toNat < 55296 ∨ (57344 ≤ c.toNat ∧ c.toNat < 1114112) := by
  have h := c.valid
  unfold UInt32.isValidChar Nat.isValidChar at h
  rcases h with h | ⟨h1, h2⟩
  · exact Or.inl h
  · exact Or.inr ⟨h1, h2⟩

theorem skipWs_cons {c : Char} (h : isWs c = false) (cs : List Char) :
    skipWs (c :: cs) = c :: cs := by simp [skipWs, h]

theorem digitVal_hexChar {k : Nat} (h : k < 10) : digitVal (hexChar k) = some k := by
  interval_cases k <;> decide

theorem hexVal_hexChar {k : Nat} (h : k < 16) : hexVal (hexChar k) = some k := by
  interval_cases k <;> decide

/-- The serialized form of one string character. -/
def escapeList (l : List Char) : List Char := (l.map escapeChar).flatten

theorem escapeString_eq (s : String) :
    escapeString s = '"' :: (escapeList s.data ++ ['"']) := rfl

theorem parseUEscape_cons {a b c2 d : Char} {ha hb hc hd : Nat} (cs3 : List Char)
    (h1 : hexVal a = some ha) (h2 : hexVal b = some hb)
    (h3 : hexVal c2 = some hc) (h4 : hexVal d = some hd) :
    parseUEscape (a :: b :: c2 :: d :: cs3) = parseUHex (combineHex ha hb hc hd) cs3 := by
  simp [parseUEscape, h1, h2, h3, h4]

theorem parseLowSurrogate_cons {a2 b2 c3 d2 : Char} {h1 h2 h3 h4 : Nat} (n : Nat) (cs4 : List Char)
    (e1 : hexVal a2 = some h1) (e2 : hexVal b2 = some h2)
    (e3 : hexVal c3 = some h3) (e4 : hexVal d2 = some h4) :
    parseLowSurrogate n ('\\' :: 'u' :: a2 :: b2 :: c3 :: d2 :: cs4) =
      (if 56320 ≤ combineHex h1 h2 h3 h4 && combineHex h1 h2 h3 h4 < 57344 then
        some (Char.ofNat (65536 + (n - 55296) * 1024 + (combineHex h1 h2 h3 h4 - 56320)), cs4)
      else none) := by
  simp [parseLowSurrogate, e1, e2, e3, e4]

theorem escapeChar_literal_or_escape (c : Char) :
    (escapeChar c = [c] ∧ ¬(c = '"') ∧ ¬(c = '\\') ∧ ¬(c.toNat < 32)) ∨
    (∃ e, escapeChar c = '\\' :: e ∧ ∀ t, parseEscape (e ++ t) = some (c, t)) := by
  have hval := char_scalar c
  unfold escapeChar
  by_cases h1 : c.toNat = 34
  · have hc : c = '"' := charToNat_inj (by rw [h1]; rfl)
    rw [if_pos h1]; subst hc
    exact Or.inr ⟨['"'], rfl, fun t => rfl⟩
  rw [if_neg h1]
  by_cases h2 : c.toNat = 92
  · have hc : c = '\\' := charToNat_inj (by rw [h2]; rfl)
    rw [if_pos h2]; subst hc
    exact Or.inr ⟨['\\'], rfl, fun t => rfl⟩
  rw [if_neg h2]
  by_cases h3 : c.toNat = 8
  · have hc : c = Char.ofNat 8 := by rw [← Char.ofNat_toNat c, h3]
    rw [if_pos h3]; subst hc
    exact Or.inr ⟨['b'], rfl, fun t => rfl⟩
  rw [if_neg h3]
  by_cases h4 : c.toNat = 9
  · have hc : c = Char.ofNat 9 := by rw [← Char.ofNat_toNat c, h4]
    rw [if_pos h4]; subst hc
    exact Or.inr ⟨['t'], rfl, fun t => rfl⟩
  rw [if_neg h4]
  by_cases h5 : c.toNat = 10
  · have hc : c = Char.ofNat 10 := by rw [← Char.ofNat_toNat c, h5]
    rw [if_pos h5]; subst hc
    exact Or.inr ⟨['n'], rfl, fun t => rfl⟩
  rw [if_neg h5]
  by_cases h6 : c.toNat = 12
  · have hc : c = Char.ofNat 12 := by rw [← Char.ofNat_toNat c, h6]
    rw [if_pos h6]; subst hc
    exact Or.inr ⟨['f'], rfl, fun t => rfl⟩
  rw [if_neg h6]
  by_cases h7 : c.toNat = 13
  · have hc : c = Char.ofNat 13 := by rw [← Char.ofNat_toNat c, h7]
    rw [if_pos h7]; subst hc
    exact Or.inr ⟨['r'], rfl, fun t => rfl⟩
  rw [if_neg h7]
  by_cases h8 : (32 ≤ c.toNat && c.toNat ≤ 126) = true
  · rw [if_pos h8]
    simp only [Bool.and_eq_true, decide_eq_true_eq] at h8
    refine Or.inl ⟨rfl, ?_, ?_, ?_⟩
    · exact fun he => h1 (by rw [he]; rfl)
    · exact fun he => h2 (by rw [he]; rfl)
    · omega
  rw [if_neg h8]
  simp only [Bool.and_eq_true, decide_eq_true_eq, not_and_or, not_le] at h8
  have d1 : c.toNat / 4096 % 16 < 16 := Nat.mod_lt _ (by omega)
  have d2 : c.toNat / 256 % 16 < 16 := Nat.mod_lt _ (by omega)
  have d3 : c.toNat / 16 % 16 < 16 := Nat.mod_lt _ (by omega)
  have d4 : c.toNat % 16 < 16 := Nat.mod_lt _ (by omega)
  by_cases h9 : c.toNat < 65536
  · rw [if_pos h9]
    refine Or.inr ⟨'u' :: hex4 c.toNat, rfl, fun t => ?_⟩
    show parseUEscape (hexChar (c.toNat / 4096 % 16) :: hexChar (c.toNat / 256 % 16) ::
        hexChar (c.toNat / 16 % 16) :: hexChar (c.toNat % 16) :: t) = _
    have hrec : combineHex (c.toNat / 4096 % 16) (c.toNat / 256 % 16)
        (c.toNat / 16 % 16) (c.toNat % 16) = c.toNat := by unfold combineHex; omega
    have hs1 : (55296 ≤ c.toNat && c.toNat < 56320) = false := by
      rcases hval with hv | ⟨hv, _⟩ <;> simp <;> omega
    have hs2 : (56320 ≤ c.toNat && c.toNat < 57344) = false := by
      rcases hval with hv | ⟨hv, _⟩ <;> simp <;> omega
    rw [parseUEscape_cons t (hexVal_hexChar d1) (hexVal_hexChar d2) (hexVal_hexChar d3)
      (hexVal_hexChar d4), hrec]
    simp [parseUHex, hs1, hs2, Char.ofNat_toNat]
  · rw [if_neg h9]
    have hup : c.toNat < 1114112 := by rcases hval with hv | ⟨_, hv⟩ <;> omega
    have e1 : (c.toNat - 65536) / 1024 < 1024 := by omega
    have e2 : (c.toNat - 65536) % 1024 < 1024 := Nat.mod_lt _ (by omega)
    generalize hhi : 55296 + (c.toNat - 65536) / 1024 = hi
    generalize hlo : 56320 + (c.toNat - 65536) % 1024 = lo
    have dhi1 : hi / 4096 % 16 < 16 := Nat.mod_lt _ (by omega)
    have dhi2 : hi / 256 % 16 < 16 := Nat.mod_lt _ (by omega)
    have dhi3 : hi / 16 % 16 < 16 := Nat.mod_lt _ (by omega)
    have dhi4 : hi % 16 < 16 := Nat.mod_lt _ (by omega)
    have dlo1 : lo / 4096 % 16 < 16 := Nat.mod_lt _ (by omega)
    have dlo2 : lo / 256 % 16 < 16 := Nat.mod_lt _ (by omega)
    have dlo3 : lo / 16 % 16 < 16 := Nat.mod_lt _ (by omega)
    have dlo4 : lo % 16 < 16 := Nat.mod_lt _ (by omega)
    refine Or.inr ⟨'u' :: hex4 hi ++ '\\' :: 'u' :: hex4 lo, by simp [hex4], fun t => ?_⟩
    have hsplit : ('u' :: hex4 hi ++ '\\' :: 'u' :: hex4 lo) ++ t =
        'u' :: (hexChar (hi / 4096 % 16) :: hexChar (hi / 256 % 16) ::
        hexChar (hi / 16 % 16) :: hexChar (hi % 16) :: '\\' :: 'u' ::
        hexChar (lo / 4096 % 16) :: hexChar (lo / 256 % 16) ::
        hexChar (lo / 16 % 16) :: hexChar (lo % 16) :: t) := by simp [hex4]
    rw [hsplit]
    rw [show ∀ l, parseEscape ('u' :: l) = parseUEscape l from fun _ => rfl]
    rw [parseUEscape_cons _ (hexVal_hexChar dhi1) (hexVal_hexChar dhi2) (hexVal_hexChar dhi3)
      (hexVal_hexChar dhi4)]
    have hrecHi : combineHex (hi / 4096 % 16) (hi / 256 % 16) (hi / 16 % 16) (hi % 16) = hi := by
      unfold combineHex; omega
    rw [hrecHi]
    have hs1 : (55296 ≤ hi && hi < 56320) = true := by simp; omega
    simp only [parseUHex, hs1, if_true]
    rw [parseLowSurrogate_cons _ _ (hexVal_hexChar dlo1) (hexVal_hexChar dlo2)
      (hexVal_hexChar dlo3) (hexVal_hexChar dlo4)]
    have hrecLo : combineHex (lo / 4096 % 16) (lo / 256 % 16) (lo / 16 % 16) (lo % 16) = lo := by
      unfold combineHex; omega
    rw [hrecLo]
    have hs2 : (56320 ≤ lo && lo < 57344) = true := by simp; omega
    have hcomb : 65536 + (hi - 55296) * 1024 + (lo - 56320) = c.toNat := by omega
    simp [hs2, hcomb, Char.ofNat_toNat]

theorem escapeChar_length_pos (c : Char) : 0 < (escapeChar c).length := by
  rcases escapeChar_literal_or_escape c with ⟨he, _, _, _⟩ | ⟨e, he, _⟩ <;> simp [he]

theorem length_le_escapeList (l : List Char) : l.length ≤ (escapeList l).length := by
  induction l with
  | nil => simp [escapeList]
  | cons c l ih =>
    have := escapeChar_length_pos c
    simp only [escapeList, List.map_cons, List.flatten_cons, List.length_append, List.length_cons]
    simp only [escapeList] at ih
    omega

theorem parseStrAux_escapeList (l : List Char) : ∀ fuel rest, l.length < fuel →
    parseStrAux fuel (escapeList l ++ '"' :: rest) = some (l, rest) := by
  induction l with
  | nil =>
    intro fuel rest h
    match fuel, h with
    | f + 1, _ =>
      show parseStrAux (f + 1) ('"' :: rest) = _
      rw [parseStrAux, if_pos rfl]
  | cons c l ih =>
    intro fuel rest h
    match fuel, h with
    | f + 1, h =>
      have hlt : l.length < f := by simp at h; omega
      have hassoc : escapeList (c :: l) ++ '"' :: rest =
          escapeChar c ++ (escapeList l ++ '"' :: rest) := by
        simp [escapeList]
      rw [hassoc]
      rcases escapeChar_literal_or_escape c with ⟨he, hq, hb, hctrl⟩ | ⟨e, he, hp⟩
      · rw [he]
        show parseStrAux (f + 1) (c :: (escapeList l ++ '"' :: rest)) = _
        rw [parseStrAux, if_neg hq, if_neg hb, if_neg hctrl, ih f rest hlt]
        rfl
      · rw [he]
        show parseStrAux (f + 1) ('\\' :: (e ++ (escapeList l ++ '"' :: rest))) = _
        rw [parseStrAux, if_neg (by decide), if_pos rfl, hp]
        show (parseStrAux f (escapeList l ++ '"' :: rest)).map (fun p => (c :: p.1, p.2)) = _
        rw [ih f rest hlt]
        rfl

theorem parseStringBody_escapeList (l : List Char) (rest : List Char) :
    parseStringBody (escapeList l ++ '"' :: rest) = some (l, rest) := by
  unfold parseStringBody
  apply parseStrAux_escapeList
  have h1 := length_le_escapeList l
  simp only [List.length_append, List.length_cons]
  omega

/-! ### Integer literals round-trip -/

theorem natCharsAux_irrel (n : Nat) : ∀ f1 f2, n < f1 → n < f2 →
    natCharsAux f1 n = natCharsAux f2 n := by
  induction n using Nat.strong_induction_on with
  | _ n ih =>
    intro f1 f2 h1 h2
    match f1, f2 with
    | fa + 1, fb + 1 =>
      rw [natCharsAux]
      conv_rhs => rw [natCharsAux]
      by_cases h : n < 10
      · rw [if_pos h, if_pos h]
      · rw [if_neg h, if_neg h, ih (n / 10) (by omega) fa fb (by omega) (by omega)]

theorem natChars_eq (n : Nat) :
    natChars n = if n < 10 then [hexChar n]
      else natChars (n / 10) ++ [hexChar (n % 10)] := by
  unfold natChars
  rw [natCharsAux]
  by_cases h : n < 10
  · rw [if_pos h, if_pos h]
  · rw [if_neg h, if_neg h, natCharsAux_irrel (n / 10) n (n / 10 + 1) (by omega) (by omega)]

theorem natChars_shape (n : Nat) : ∃ d ds, natChars n = hexChar d :: ds ∧ d < 10 ∧
    (0 < n → 0 < d) ∧ ∀ c ∈ ds, ∃ k, k < 10 ∧ c = hexChar k := by
  induction n using Nat.strong_induction_on with
  | _ n ih =>
    rw [natChars_eq]
    by_cases h : n < 10
    · rw [if_pos h]
      exact ⟨n, [], rfl, h, fun hp => hp, by simp⟩
    · rw [if_neg h]
      obtain ⟨d, ds, hsh, hd10, hdpos, hds⟩ := ih (n / 10) (by omega)
      refine ⟨d, ds ++ [hexChar (n % 10)], by rw [hsh]; rfl, hd10, ?_, ?_⟩
      · exact fun _ => hdpos (by omega)
      · intro c hc
        rcases List.mem_append.mp hc with hc | hc
        · exact hds c hc
        · simp at hc
          exact ⟨n % 10, Nat.mod_lt _ (by omega), hc⟩

/-- The head of the remaining input is not a digit. -/
def headDigitNone : List Char → Prop
  | [] => True
  | c :: _ => digitVal c = none

theorem parseNat_cons (c : Char) (cs : List Char) :
    parseNat (c :: cs) =
      match digitVal c with
      | none => none
      | some d =>
        if d = 0 then
          match cs with
          | c2 :: _ => if (digitVal c2).isSome then none else some (0, cs)
          | [] => some (0, [])
        else some (parseDigitsAux d cs) := rfl

theorem parseDigitsAux_spec : ∀ (digits rest : List Char) (acc : Nat),
    (∀ c ∈ digits, (digitVal c).isSome) → headDigitNone rest →
    parseDigitsAux acc (digits ++ rest) =
      (digits.foldl (fun a c => a * 10 + (digitVal c).getD 0) acc, rest) := by
  intro digits
  induction digits with
  | nil =>
    intro rest acc _ hr
    cases rest with
    | nil => rfl
    | cons c cs =>
      show parseDigitsAux acc (c :: cs) = _
      rw [parseDigitsAux, show digitVal c = none from hr]
      rfl
  | cons d ds ih =>
    intro rest acc hd hr
    have hd0 : (digitVal d).isSome := hd d (by simp)
    obtain ⟨k, hk⟩ := Option.isSome_iff_exists.mp hd0
    show parseDigitsAux acc (d :: (ds ++ rest)) = _
    rw [parseDigitsAux, hk]
    show parseDigitsAux (acc * 10 + k) (ds ++ rest) = _
    rw [ih rest (acc * 10 + k) (fun c hc => hd c (by simp [hc])) hr]
    simp [hk]

theorem foldl_natChars (n : Nat) : ∀ acc,
    (natChars n).foldl (fun a c => a * 10 + (digitVal c).getD 0) acc =
      acc * 10 ^ (natChars n).length + n := by
  induction n using Nat.strong_induction_on with
  | _ n ih =>
    intro acc
    rw [natChars_eq]
    by_cases h : n < 10
    · rw [if_pos h]
      simp [digitVal_hexChar h]
    · rw [if_neg h]
      rw [List.foldl_append, ih (n / 10) (by omega) acc]
      simp only [List.foldl_cons, List.foldl_nil,
        digitVal_hexChar (Nat.mod_lt n (by omega)), Option.getD_some,
        List.length_append, List.length_cons, List.length_nil, Nat.zero_add]
      rw [pow_succ]
      have hmod : n / 10 * 10 + n % 10 = n := by omega
      calc (acc * 10 ^ (natChars (n / 10)).length + n / 10) * 10 + n % 10
          = acc * (10 ^ (natChars (n / 10)).length * 10) + (n / 10 * 10 + n % 10) := by ring
        _ = acc * (10 ^ (natChars (n / 10)).length * 10) + n := by rw [hmod]

theorem parseNat_natChars (n : Nat) (rest : List Char) (hr : headDigitNone rest) :
    parseNat (natChars n ++ rest) = some (n, rest) := by
  obtain ⟨d, ds, hsh, hd10, hdpos, hds⟩ := natChars_shape n
  by_cases hn : n = 0
  · subst hn
    have h0 : natChars 0 = [hexChar 0] := by rw [natChars_eq]; rfl
    rw [h0]
    show parseNat (hexChar 0 :: rest) = _
    rw [parseNat_cons, digitVal_hexChar (by omega)]
    cases rest with
    | nil => rfl
    | cons c cs =>
      have hnone : (digitVal c).isSome = false := by
        rw [show digitVal c = none from hr]; rfl
      simp [hnone]
  · rw [hsh]
    show parseNat (hexChar d :: (ds ++ rest)) = _
    rw [parseNat_cons, digitVal_hexChar hd10]
    have hdne : ¬(d = 0) := by have := hdpos (by omega); omega
    show (if d = 0 then _ else some (parseDigitsAux d (ds ++ rest))) = _
    rw [if_neg hdne]
    rw [parseDigitsAux_spec ds rest d
      (fun c hc => by obtain ⟨k, hk, rfl⟩ := hds c hc; rw [digitVal_hexChar hk]; rfl) hr]
    have hfold := foldl_natChars n 0
    rw [hsh] at hfold
    simp only [List.foldl_cons, digitVal_hexChar hd10, Option.getD_some, Nat.zero_mul,
      Nat.zero_add] at hfold
    rw [hfold]

theorem boundary_facts {rest : List Char} (hb : boundary rest = true) :
    headDigitNone rest ∧ noFloatFollow rest = true := by
  cases rest with
  | nil => exact ⟨trivial, rfl⟩
  | cons c cs =>
    simp [boundary] at hb
    rcases hb with (rfl | rfl) | rfl <;> exact ⟨rfl, rfl⟩

theorem digitChar_props (k : Nat) (h : k < 10) :
    isWs (hexChar k) = false ∧ ¬(hexChar k = '{') ∧ ¬(hexChar k = '[') ∧
    ¬(hexChar k = '"') ∧ ¬(hexChar k = 'n') ∧ ¬(hexChar k = 't') ∧
    ¬(hexChar k = 'f') ∧ ¬(hexChar k = 'N') ∧ ¬(hexChar k = '-') ∧
    ¬(hexChar k = ']') ∧ ¬(hexChar k = '}') := by
  interval_cases k <;> exact ⟨rfl, by decide, by decide, by decide, by decide, by decide,
    by decide, by decide, by decide, by decide, by decide⟩

theorem parseNumber_intChars (i : Int) (rest : List Char) (hb : boundary rest = true) :
    parseNumber (intChars i ++ rest) = some (i, rest) := by
  obtain ⟨hdig, hfloat⟩ := boundary_facts hb
  cases i with
  | ofNat n =>
    show parseNumber (natChars n ++ rest) = _
    obtain ⟨d, ds, hsh, hd10, _, _⟩ := natChars_shape n
    rw [hsh]
    show parseNumber (hexChar d :: (ds ++ rest)) = _
    rw [parseNumber, if_neg (digitChar_props d hd10).2.2.2.2.2.2.2.2.1]
    have := parseNat_natChars n rest hdig
    rw [hsh] at this
    show (match parseNat (hexChar d :: (ds ++ rest)) with
      | some (n, r) => if noFloatFollow r then some ((n : Int), r) else none
      | none => none) = _
    rw [show hexChar d :: (ds ++ rest) = (hexChar d :: ds) ++ rest from rfl, this]
    simp [hfloat, Int.ofNat_eq_coe]
  | negSucc m =>
    show parseNumber ('-' :: (natChars (m + 1) ++ rest)) = _
    rw [parseNumber, if_pos rfl, parseNat_natChars (m + 1) rest hdig]
    simp [hfloat, Int.negSucc_eq]

/-! ## `hasBad` is preserved by canonicalization -/

theorem bool_or_false {a b : Bool} (h : (a || b) = false) : a = false ∧ b = false := by
  cases a <;> cases b <;> simp_all

theorem hasBadMembers_insertPair (p : String × Json) (l : List (String × Json)) :
    hasBadMembers (insertPair p l) = (hasBad p.2 || hasBadMembers l) := by
  obtain ⟨k, v⟩ := p
  induction l with
  | nil => rfl
  | cons q rest ih =>
    obtain ⟨k2, v2⟩ := q
    show hasBadMembers
      (if strLe k k2 then (k, v) :: (k2, v2) :: rest else (k2, v2) :: insertPair (k, v) rest) = _
    by_cases h : strLe k k2 = true
    · rw [if_pos h]
      rfl
    · rw [if_neg h]
      show (hasBad v2 || hasBadMembers (insertPair (k, v) rest)) = _
      rw [ih]
      show (hasBad v2 || (hasBad v || hasBadMembers rest))
        = (hasBad v || (hasBad v2 || hasBadMembers rest))
      cases hasBad v <;> cases hasBad v2 <;> simp

theorem hasBadMembers_sortPairs (l : List (String × Json)) :
    hasBadMembers (sortPairs l) = hasBadMembers l := by
  induction l with
  | nil => rfl
  | cons p rest ih =>
    obtain ⟨k, v⟩ := p
    show hasBadMembers (insertPair (k, v) (sortPairs rest)) = _
    rw [hasBadMembers_insertPair, ih]
    rfl

mutual

theorem hasBad_canonJson : (j : Json) → hasBad (canonJson j) = hasBad j
  | .null => rfl
  | .bool _ => rfl
  | .num _ => rfl
  | .nan => rfl
  | .str _ => rfl
  | .bad => rfl
  | .arr xs => by
    show hasBadList (canonList xs) = hasBadList xs
    exact hasBadList_canonList xs
  | .obj kvs => by
    show hasBadMembers (sortPairs (canonMembers kvs)) = hasBadMembers kvs
    rw [hasBadMembers_sortPairs]
    exact hasBadMembers_canonMembers kvs
termination_by structural j => j

theorem hasBadList_canonList : (xs : List Json) → hasBadList (canonList xs) = hasBadList xs
  | [] => rfl
  | x :: xs => by
    show (hasBad (canonJson x) || hasBadList (canonList xs)) = (hasBad x || hasBadList xs)
    rw [hasBad_canonJson x, hasBadList_canonList xs]
termination_by structural l => l

theorem hasBadMembers_canonMembers :
    (l : List (String × Json)) → hasBadMembers (canonMembers l) = hasBadMembers l
  | [] => rfl
  | (k, v) :: xs => by
    show (hasBad (canonJson v) || hasBadMembers (canonMembers xs)) = (hasBad v || hasBadMembers xs)
    rw [hasBad_canonJson v, hasBadMembers_canonMembers xs]
termination_by structural l => l

end

/-! ## Fuel bounds for the parser -/

mutual

/-- Enough parser fuel for one serialized value. -/
def fuelVal : Json → Nat
  | .arr xs => fuelElems xs + 1
  | .obj kvs => fuelMembers kvs + 1
  | _ => 1
termination_by structural j => j

/-- Enough parser fuel for a serialized element list. -/
def fuelElems : List Json → Nat
  | [] => 0
  | x :: xs => fuelVal x + fuelElems xs + 1
termination_by structural l => l

/-- Enough parser fuel for a serialized member list. -/
def fuelMembers : List (String × Json) → Nat
  | [] => 0
  | (_, v) :: xs => fuelVal v + fuelMembers xs + 1
termination_by structural l => l

end

/-! ## Head shapes of serialized values -/

theorem intChars_head (i : Int) :
    ∃ c cs, intChars i = c :: cs ∧ isWs c = false ∧ ¬(c = '{') ∧ ¬(c = '[') ∧ ¬(c = '"') ∧
      ¬(c = 'n') ∧ ¬(c = 't') ∧ ¬(c = 'f') ∧ ¬(c = 'N') ∧ ¬(c = ']') := by
  cases i with
  | ofNat n =>
    obtain ⟨d, ds, hsh, hd10, _, _⟩ := natChars_shape n
    obtain ⟨w, p1, p2, p3, p4, p5, p6, p7, _, p9, _⟩ := digitChar_props d hd10
    exact ⟨hexChar d, ds, hsh, w, p1, p2, p3, p4, p5, p6, p7, p9⟩
  | negSucc m =>
    exact ⟨'-', natChars (m + 1), rfl, by decide, by decide, by decide, by decide,
      by decide, by decide, by decide, by decide, by decide⟩

theorem plainChars_head (j : Json) (h : hasBad j = false) :
    ∃ c cs, plainChars j = c :: cs ∧ isWs c = false ∧ ¬(c = ']') := by
  cases j with
  | null => exact ⟨'n', _, rfl, by decide, by decide⟩
  | bool b =>
    cases b with
    | false => exact ⟨'f', _, rfl, by decide, by decide⟩
    | true => exact ⟨'t', _, rfl, by decide, by decide⟩
  | num i =>
    obtain ⟨c, cs, hcs, hw, _, _, _, _, _, _, _, hbr⟩ := intChars_head i
    exact ⟨c, cs, hcs, hw, hbr⟩
  | nan => exact ⟨'N', _, rfl, by decide, by decide⟩
  | str s => exact ⟨'"', escapeList s.data ++ ['"'], rfl, by decide, by decide⟩
  | arr xs => exact ⟨'[', _, rfl, by decide, by decide⟩
  | obj kvs => exact ⟨'{', _, rfl, by decide, by decide⟩
  | bad => exact absurd h (by simp [hasBad])

theorem plainMembers_head (k : String) (v : Json) (ms : List (String × Json)) :
    ∃ t, plainMembers ((k, v) :: ms) = '"' :: t := by
  cases ms with
  | nil =>
    refine ⟨escapeList k.data ++ '"' :: (':' :: plainChars v), ?_⟩
    show escapeString k ++ ':' :: plainChars v = _
    simp [escapeString, escapeList]
  | cons m2 ms2 =>
    refine ⟨escapeList k.data ++ '"' :: (':' :: (plainChars v ++ ',' :: plainMembers (m2 :: ms2))), ?_⟩
    show escapeString k ++ ':' :: plainChars v ++ ',' :: plainMembers (m2 :: ms2) = _
    simp [escapeString, escapeList]

/-! ## One-step unfoldings of the parser -/

theorem parseVal_step (f : Nat) (c : Char) (cs : List Char) (hw : isWs c = false) :
    parseVal (f + 1) (c :: cs) =
      if c = '{' then
        match skipWs cs with
        | [] => none
        | c2 :: cs3 =>
          if c2 = '}' then some (.obj [], cs3)
          else (parseMembers f (c2 :: cs3)).map (fun p => (.obj p.1, p.2))
      else if c = '[' then
        match skipWs cs with
        | [] => none
        | c2 :: cs3 =>
          if c2 = ']' then some (.arr [], cs3)
          else (parseElems f (c2 :: cs3)).map (fun p => (.arr p.1, p.2))
      else if c = '"' then
        (parseStringBody cs).map (fun p => (.str (String.mk p.1), p.2))
      else parseConst c cs := by
  rw [parseVal, skipWs_cons hw]

theorem parseConst_num (c : Char) (cs : List Char) (h1 : ¬(c = 'n')) (h2 : ¬(c = 't'))
    (h3 : ¬(c = 'f')) (h4 : ¬(c = 'N')) :
    parseConst c cs = (parseNumber (c :: cs)).map (fun p => (Json.num p.1, p.2)) := by
  rw [parseConst.eq_def, if_neg h1, if_neg h2, if_neg h3, if_neg h4]

theorem parseMembers_cons (f : Nat) (cs2 : List Char) :
    parseMembers (f + 1) ('"' :: cs2) =
      match parseStringBody cs2 with
      | none => none
      | some (k, cs3) =>
        match skipWs cs3 with
        | ':' :: cs4 =>
          match parseVal f cs4 with
          | none => none
          | some (v, cs5) =>
            match skipWs cs5 with
            | ',' :: cs6 => (parseMembers f cs6).map (fun p => ((String.mk k, v) :: p.1, p.2))
            | '}' :: cs6 => some ([(String.mk k, v)], cs6)
            | _ => none
        | _ => none := by
  rw [parseMembers, show skipWs ('"' :: cs2) = '"' :: cs2 from rfl]
  rfl

/-! ## Parsing inverts serialization -/

mutual

theorem parseVal_plain : (j : Json) → hasBad j = false →
    ∀ fuel rest, fuelVal j ≤ fuel → boundary rest = true →
    parseVal fuel (plainChars j ++ rest) = some (j, rest)
  | .null, _, fuel, rest, hf, _ => by
    cases fuel with
    | zero => exact absurd hf (by simp [fuelVal])
    | succ f => rfl
  | .bool b, _, fuel, rest, hf, _ => by
    cases fuel with
    | zero => exact absurd hf (by simp [fuelVal])
    | succ f => cases b <;> rfl
  | .nan, _, fuel, rest, hf, _ => by
    cases fuel with
    | zero => exact absurd hf (by simp [fuelVal])
    | succ f => rfl
  | .num i, _, fuel, rest, hf, hb => by
    cases fuel with
    | zero => exact absurd hf (by simp [fuelVal])
    | succ f =>
      obtain ⟨c, cs, hcs, hw, hA, hB, hC, h1, h2, h3, h4, _⟩ := intChars_head i
      show parseVal (f + 1) (intChars i ++ rest) = some (.num i, rest)
      rw [hcs]
      show parseVal (f + 1) (c :: (cs ++ rest)) = some (.num i, rest)
      rw [parseVal_step f c (cs ++ rest) hw, if_neg hA, if_neg hB, if_neg hC,
        parseConst_num c (cs ++ rest) h1 h2 h3 h4,
        show c :: (cs ++ rest) = (c :: cs) ++ rest from rfl, ← hcs,
        parseNumber_intChars i rest hb]
      rfl
  | .str s, _, fuel, rest, hf, _ => by
    cases fuel with
    | zero => exact absurd hf (by simp [fuelVal])
    | succ f =>
      show parseVal (f + 1) ('"' :: ((escapeList s.data ++ ['"']) ++ rest)) = some (.str s, rest)
      rw [parseVal_step f '"' _ (by decide), if_neg (by decide), if_neg (by decide), if_pos rfl,
        show (escapeList s.data ++ ['"']) ++ rest = escapeList s.data ++ '"' :: rest by simp,
        parseStringBody_escapeList]
      rfl
  | .arr xs, hbad, fuel, rest, hf, _ => by
    cases fuel with
    | zero => exact absurd hf (by simp [fuelVal])
    | succ f =>
      cases xs with
      | nil => rfl
      | cons x xs2 =>
        obtain ⟨hbx, hbxs⟩ := bool_or_false (show (hasBad x || hasBadList xs2) = false from hbad)
        obtain ⟨c, t0, hct, hwc, hcr⟩ := plainChars_head x hbx
        have hh : ∃ t, plainElems (x :: xs2) = c :: t := by
          cases xs2 with
          | nil => exact ⟨t0, hct⟩
          | cons y ys =>
            refine ⟨t0 ++ ',' :: plainElems (y :: ys), ?_⟩
            show plainChars x ++ ',' :: plainElems (y :: ys) = c :: (t0 ++ ',' :: plainElems (y :: ys))
            rw [hct]
            rfl
        obtain ⟨t, ht⟩ := hh
        show parseVal (f + 1) ('[' :: ((plainElems (x :: xs2) ++ [']']) ++ rest))
          = some (.arr (x :: xs2), rest)
        rw [show (plainElems (x :: xs2) ++ [']']) ++ rest = plainElems (x :: xs2) ++ ']' :: rest by simp]
        rw [parseVal_step f '[' _ (by decide), if_neg (by decide), if_pos rfl]
        rw [ht, show (c :: t) ++ ']' :: rest = c :: (t ++ ']' :: rest) from rfl, skipWs_cons hwc]
        show (if c = ']' then some (Json.arr [], t ++ ']' :: rest)
          else (parseElems f (c :: (t ++ ']' :: rest))).map (fun p => (Json.arr p.1, p.2)))
          = some (.arr (x :: xs2), rest)
        rw [if_neg hcr]
        rw [show c :: (t ++ ']' :: rest) = (c :: t) ++ ']' :: rest from rfl, ← ht]
        rw [parseElems_plain (x :: xs2) (show hasBadList (x :: xs2) = false from hbad) f rest
          (by have h1 : fuelVal (Json.arr (x :: xs2)) = fuelElems (x :: xs2) + 1 := rfl; omega)
          (List.cons_ne_nil x xs2)]
        rfl
  | .obj kvs, hbad, fuel, rest, hf, _ => by
    cases fuel with
    | zero => exact absurd hf (by simp [fuelVal])
    | succ f =>
      cases kvs with
      | nil => rfl
      | cons m ms =>
        obtain ⟨k, v⟩ := m
        obtain ⟨t, ht⟩ := plainMembers_head k v ms
        show parseVal (f + 1) ('{' :: ((plainMembers ((k, v) :: ms) ++ ['}']) ++ rest))
          = some (.obj ((k, v) :: ms), rest)
        rw [show (plainMembers ((k, v) :: ms) ++ ['}']) ++ rest
          = plainMembers ((k, v) :: ms) ++ '}' :: rest by simp]
        rw [parseVal_step f '{' _ (by decide), if_pos rfl]
        rw [ht, show ('"' :: t) ++ '}' :: rest = '"' :: (t ++ '}' :: rest) from rfl,
          skipWs_cons (by decide)]
        show (if ('"' : Char) = '}' then some (Json.obj [], t ++ '}' :: rest)
          else (parseMembers f ('"' :: (t ++ '}' :: rest))).map (fun p => (Json.obj p.1, p.2)))
          = some (.obj ((k, v) :: ms), rest)
        rw [if_neg (by decide)]
        rw [show '"' :: (t ++ '}' :: rest) = ('"' :: t) ++ '}' :: rest from rfl, ← ht]
        rw [parseMembers_plain ((k, v) :: ms)
          (show hasBadMembers ((k, v) :: ms) = false from hbad) f rest
          (by have h1 : fuelVal (Json.obj ((k, v) :: ms)) = fuelMembers ((k, v) :: ms) + 1 := rfl
              omega)
          (List.cons_ne_nil (k, v) ms)]
        rfl
  | .bad, hbad, _, _, _, _ => by simp [hasBad] at hbad
termination_by structural j => j

theorem parseElems_plain : (xs : List Json) → hasBadList xs = false →
    ∀ fuel rest, fuelElems xs ≤ fuel → xs ≠ [] →
    parseElems fuel (plainElems xs ++ ']' :: rest) = some (xs, rest)
  | [], _, _, _, _, hne => absurd rfl hne
  | [x], hbad, fuel, rest, hf, _ => by
    cases fuel with
    | zero => exact absurd hf (by have h1 : fuelElems [x] = fuelVal x + 1 := rfl; omega)
    | succ f =>
      have hbx : hasBad x = false :=
        (bool_or_false (show (hasBad x || hasBadList []) = false from hbad)).1
      show parseElems (f + 1) (plainChars x ++ ']' :: rest) = some ([x], rest)
      rw [parseElems, parseVal_plain x hbx f (']' :: rest)
        (by have h1 : fuelElems [x] = fuelVal x + 1 := rfl; omega) rfl]
      rfl
  | x :: y :: ys, hbad, fuel, rest, hf, _ => by
    cases fuel with
    | zero =>
      exact absurd hf
        (by have h1 : fuelElems (x :: y :: ys) = fuelVal x + fuelElems (y :: ys) + 1 := rfl; omega)
    | succ f =>
      obtain ⟨hbx, hbt⟩ := bool_or_false (show (hasBad x || hasBadList (y :: ys)) = false from hbad)
      show parseElems (f + 1) ((plainChars x ++ ',' :: plainElems (y :: ys)) ++ ']' :: rest)
        = some (x :: y :: ys, rest)
      rw [show (plainChars x ++ ',' :: plainElems (y :: ys)) ++ ']' :: rest
          = plainChars x ++ ',' :: (plainElems (y :: ys) ++ ']' :: rest) by simp]
      rw [parseElems, parseVal_plain x hbx f (',' :: (plainElems (y :: ys) ++ ']' :: rest))
        (by have h1 : fuelElems (x :: y :: ys) = fuelVal x + fuelElems (y :: ys) + 1 := rfl; omega)
        rfl]
      show (parseElems f (plainElems (y :: ys) ++ ']' :: rest)).map (fun p => (x :: p.1, p.2))
        = some (x :: y :: ys, rest)
      rw [parseElems_plain (y :: ys) hbt f rest
        (by have h1 : fuelElems (x :: y :: ys) = fuelVal x + fuelElems (y :: ys) + 1 := rfl; omega)
        (List.cons_ne_nil y ys)]
      rfl
termination_by structural l => l

theorem parseMembers_plain : (kvs : List (String × Json)) → hasBadMembers kvs = false →
    ∀ fuel rest, fuelMembers kvs ≤ fuel → kvs ≠ [] →
    parseMembers fuel (plainMembers kvs ++ '}' :: rest) = some (kvs, rest)
  | [], _, _, _, _, hne => absurd rfl hne
  | [(k, v)], hbad, fuel, rest, hf, _ => by
    cases fuel with
    | zero => exact absurd hf (by have h1 : fuelMembers [(k, v)] = fuelVal v + 1 := rfl; omega)
    | succ f =>
      have hbv : hasBad v = false :=
        (bool_or_false (show (hasBad v || hasBadMembers []) = false from hbad)).1
      show parseMembers (f + 1) ((escapeString k ++ ':' :: plainChars v) ++ '}' :: rest)
        = some ([(k, v)], rest)
      rw [show (escapeString k ++ ':' :: plainChars v) ++ '}' :: rest
          = '"' :: (escapeList k.data ++ '"' :: (':' :: (plainChars v ++ '}' :: rest)))
          by simp [escapeString, escapeList]]
      rw [parseMembers_cons, parseStringBody_escapeList]
      show (match parseVal f (plainChars v ++ '}' :: rest) with
        | none => none
        | some (v2, cs5) =>
          match skipWs cs5 with
          | ',' :: cs6 => (parseMembers f cs6).map (fun p => ((String.mk k.data, v2) :: p.1, p.2))
          | '}' :: cs6 => some ([(String.mk k.data, v2)], cs6)
          | _ => none) = some ([(k, v)], rest)
      rw [parseVal_plain v hbv f ('}' :: rest)
        (by have h1 : fuelMembers [(k, v)] = fuelVal v + 1 := rfl; omega) rfl]
      rfl
  | (k, v) :: m2 :: ms, hbad, fuel, rest, hf, _ => by
    cases fuel with
    | zero =>
      exact absurd hf
        (by have h1 : fuelMembers ((k, v) :: m2 :: ms) = fuelVal v + fuelMembers (m2 :: ms) + 1 := rfl
            omega)
    | succ f =>
      obtain ⟨hbv, hbms⟩ :=
        bool_or_false (show (hasBad v || hasBadMembers (m2 :: ms)) = false from hbad)
      show parseMembers (f + 1)
          ((escapeString k ++ ':' :: plainChars v ++ ',' :: plainMembers (m2 :: ms)) ++ '}' :: rest)
        = some ((k, v) :: m2 :: ms, rest)
      rw [show (escapeString k ++ ':' :: plainChars v ++ ',' :: plainMembers (m2 :: ms)) ++ '}' :: rest
          = '"' :: (escapeList k.data ++ '"' ::
              (':' :: (plainChars v ++ ',' :: (plainMembers (m2 :: ms) ++ '}' :: rest))))
          by simp [escapeString, escapeList]]
      rw [parseMembers_cons, parseStringBody_escapeList]
      show (match parseVal f (plainChars v ++ ',' :: (plainMembers (m2 :: ms) ++ '}' :: rest)) with
        | none => none
        | some (v2, cs5) =>
          match skipWs cs5 with
          | ',' :: cs6 => (parseMembers f cs6).map (fun p => ((String.mk k.data, v2) :: p.1, p.2))
          | '}' :: cs6 => some ([(String.mk k.data, v2)], cs6)
          | _ => none) = some ((k, v) :: m2 :: ms, rest)
      rw [parseVal_plain v hbv f (',' :: (plainMembers (m2 :: ms) ++ '}' :: rest))
        (by have h1 : fuelMembers ((k, v) :: m2 :: ms) = fuelVal v + fuelMembers (m2 :: ms) + 1 := rfl
            omega)
        rfl]
      show (parseMembers f (plainMembers (m2 :: ms) ++ '}' :: rest)).map
          (fun p => ((String.mk k.data, v) :: p.1, p.2)) = some ((k, v) :: m2 :: ms, rest)
      rw [parseMembers_plain (m2 :: ms) hbms f rest
        (by have h1 : fuelMembers ((k, v) :: m2 :: ms) = fuelVal v + fuelMembers (m2 :: ms) + 1 := rfl
            omega)
        (List.cons_ne_nil m2 ms)]
      rfl
termination_by structural l => l

end

/-! ## Fuel bounds: the serialized length bounds the fuel the parser needs -/

mutual

theorem fuelVal_le : (j : Json) → hasBad j = false → fuelVal j ≤ (plainChars j).length
  | .null, _ => by decide
  | .bool b, _ => by cases b <;> decide
  | .nan, _ => by decide
  | .num i, _ => by
    obtain ⟨c, cs, hcs, _⟩ := intChars_head i
    show fuelVal (.num i) ≤ (intChars i).length
    rw [hcs, show fuelVal (Json.num i) = 1 from rfl, List.length_cons]
    omega
  | .str s, _ => by
    show fuelVal (.str s) ≤ (escapeString s).length
    rw [show fuelVal (Json.str s) = 1 from rfl,
      show escapeString s = ('"' :: escapeList s.data) ++ ['"'] from rfl,
      List.length_append, List.length_cons]
    omega
  | .arr xs, h => by
    cases xs with
    | nil => decide
    | cons x xs2 =>
      have h1 := fuelElems_le (x :: xs2) h
      have h2 : fuelVal (.arr (x :: xs2)) = fuelElems (x :: xs2) + 1 := rfl
      have h3 : (plainChars (.arr (x :: xs2))).length = (plainElems (x :: xs2)).length + 2 := by
        rw [show plainChars (Json.arr (x :: xs2))
            = '[' :: (plainElems (x :: xs2) ++ [']']) from rfl,
          List.length_cons, List.length_append]
        rfl
      omega
  | .obj kvs, h => by
    cases kvs with
    | nil => decide
    | cons m ms =>
      have h1 := fuelMembers_le (m :: ms) h
      have h2 : fuelVal (.obj (m :: ms)) = fuelMembers (m :: ms) + 1 := rfl
      have h3 : (plainChars (.obj (m :: ms))).length = (plainMembers (m :: ms)).length + 2 := by
        rw [show plainChars (Json.obj (m :: ms))
            = '{' :: (plainMembers (m :: ms) ++ ['}']) from rfl,
          List.length_cons, List.length_append]
        rfl
      omega
  | .bad, h => by simp [hasBad] at h
termination_by structural j => j

theorem fuelElems_le : (xs : List Json) → hasBadList xs = false →
    fuelElems xs ≤ (plainElems xs).length + 1
  | [], _ => by decide
  | [x], h => by
    have hbx : hasBad x = false :=
      (bool_or_false (show (hasBad x || hasBadList []) = false from h)).1
    have h1 := fuelVal_le x hbx
    have h2 : fuelElems [x] = fuelVal x + 1 := rfl
    have h3 : plainElems [x] = plainChars x := rfl
    rw [h2, h3]
    omega
  | x :: y :: ys, h => by
    obtain ⟨hbx, hbt⟩ := bool_or_false (show (hasBad x || hasBadList (y :: ys)) = false from h)
    have h1 := fuelVal_le x hbx
    have h2 := fuelElems_le (y :: ys) hbt
    rw [show fuelElems (x :: y :: ys) = fuelVal x + fuelElems (y :: ys) + 1 from rfl,
      show plainElems (x :: y :: ys) = plainChars x ++ ',' :: plainElems (y :: ys) from rfl,
      List.length_append, List.length_cons]
    omega
termination_by structural l => l

theorem fuelMembers_le : (kvs : List (String × Json)) → hasBadMembers kvs = false →
    fuelMembers kvs ≤ (plainMembers kvs).length + 1
  | [], _ => by decide
  | [(k, v)], h => by
    have hbv : hasBad v = false :=
      (bool_or_false (show (hasBad v || hasBadMembers []) = false from h)).1
    have h1 := fuelVal_le v hbv
    rw [show fuelMembers [(k, v)] = fuelVal v + 1 from rfl,
      show plainMembers [(k, v)] = escapeString k ++ ':' :: plainChars v from rfl,
      List.length_append, List.length_cons]
    omega
  | (k, v) :: m2 :: ms, h => by
    obtain ⟨hbv, hbt⟩ :=
      bool_or_false (show (hasBad v || hasBadMembers (m2 :: ms)) = false from h)
    have h1 := fuelVal_le v hbv
    have h2 := fuelMembers_le (m2 :: ms) hbt
    rw [show fuelMembers ((k, v) :: m2 :: ms) = fuelVal v + fuelMembers (m2 :: ms) + 1 from rfl,
      show plainMembers ((k, v) :: m2 :: ms)
        = escapeString k ++ ':' :: plainChars v ++ ',' :: plainMembers (m2 :: ms) from rfl]
    simp only [List.length_append, List.length_cons]
    omega
termination_by structural l => l

end

/-! ## `json.loads` round-trips `json.dumps` output -/

theorem loads_plainChars (j : Json) (h : hasBad j = false) :
    loads (String.mk (plainChars j)) = some j := by
  have hb := fuelVal_le j h
  have hp := parseVal_plain j h ((plainChars j).length + 1) [] (by omega) rfl
  rw [List.append_nil] at hp
  show (match parseVal ((plainChars j).length + 1) (plainChars j) with
    | some (v, rest) => if skipWs rest = [] then some v else none
    | none => none) = some j
  rw [hp]
  rfl

theorem loads_dumpsTotal (j : Json) (h : hasBad j = false) :
    loads (dumpsTotal j) = some (canonJson j) := by
  have hc : hasBad (canonJson j) = false := by rw [hasBad_canonJson]; exact h
  exact loads_plainChars (canonJson j) hc

theorem dumpsCanonical_eq (j : Json) (h : hasBad j = false) :
    dumpsCanonical j = some (dumpsTotal j) := by
  simp [dumpsCanonical, dumpsTotal, h]

/-! ## The append envelope: canonical form and structure checks -/

theorem canon_envelope (tag : String) (p : Json) (hm ts : String) :
    canonJson (ledgerEnvelope tag p hm ts) =
      .obj [("action_type", .str tag), ("human_message", .str hm),
            ("payload", canonJson p), ("timestamp", .str ts)] := rfl

theorem hasBad_envelope (tag : String) (p : Json) (hm ts : String) :
    hasBad (ledgerEnvelope tag p hm ts) = hasBad p := by
  show (hasBad p || false) = hasBad p
  exact Bool.or_false _

theorem jsonStructureChecks_dumps (e : LedgerRow) (tag : String) (p : Json) (hm ts : String)
    (hbp : hasBad p = false)
    (hdt : e.data_text = dumpsTotal (ledgerEnvelope tag p hm ts)) :
    jsonStructureChecks e = .ok [] := by
  have hbenv : hasBad (ledgerEnvelope tag p hm ts) = false := by
    rw [hasBad_envelope]; exact hbp
  rw [jsonStructureChecks, hdt, loads_dumpsTotal _ hbenv, canon_envelope]
  rfl

/-! ## Chain intactness: the invariant append maintains and verify confirms -/

/-- The three per-row checks of `verify_ledger` all pass. -/
def intactRow (expected : String) (e : LedgerRow) : Prop :=
  e.prev_hash = expected ∧
  e.data_hash = createDataHash e.timestamp e.prev_hash e.actor_id e.data_text ∧
  jsonStructureChecks e = .ok []

/-- Every row passes its checks, each against the stored digest of its
predecessor (starting from `expected`). -/
def intactFrom (expected : String) : LedgerDb → Prop
  | [] => True
  | e :: rest => intactRow expected e ∧ intactFrom e.data_hash rest

/-- The stored digest of the last row (`expected` for an empty list). -/
def chainLast (expected : String) : LedgerDb → String
  | [] => expected
  | e :: rest => chainLast e.data_hash rest

theorem verifyEntry_eq (expected : String) (e : LedgerRow) (js : List Discrepancy)
    (hjs : jsonStructureChecks e = .ok js) :
    verifyEntry expected e = .ok
      ((if e.prev_hash ≠ expected
          then [.prevHashMismatch e.id expected e.prev_hash] else []) ++
       (if e.data_hash ≠ createDataHash e.timestamp e.prev_hash e.actor_id e.data_text
          then [.hashMismatch e.id
            (createDataHash e.timestamp e.prev_hash e.actor_id e.data_text) e.data_hash]
          else []) ++ js) := by
  rw [verifyEntry, hjs]

theorem verifyEntry_intact {expected : String} {e : LedgerRow} (h : intactRow expected e) :
    verifyEntry expected e = .ok [] := by
  obtain ⟨h1, h2, h3⟩ := h
  rw [verifyEntry_eq expected e [] h3, if_neg (by simp [h1]), if_neg (by simp [h2])]
  rfl

theorem verifyFrom_intact : ∀ (db : LedgerDb) (expected : String),
    intactFrom expected db → verifyFrom expected db = .ok []
  | [], _, _ => rfl
  | e :: rest, expected, h => by
    obtain ⟨hr, ht⟩ := h
    rw [verifyFrom, verifyEntry_intact hr, verifyFrom_intact rest e.data_hash ht]
    rfl

theorem chainLast_append : ∀ (l1 : LedgerDb) (expected : String) (l2 : LedgerDb),
    chainLast expected (l1 ++ l2) = chainLast (chainLast expected l1) l2
  | [], _, _ => rfl
  | e :: rest, _, l2 => chainLast_append rest e.data_hash l2

theorem intactFrom_append : ∀ (l1 : LedgerDb) (expected : String) (l2 : LedgerDb),
    intactFrom expected l1 → intactFrom (chainLast expected l1) l2 →
    intactFrom expected (l1 ++ l2)
  | [], _, _, _, h2 => h2
  | e :: rest, expected, l2, h1, h2 =>
    ⟨h1.1, intactFrom_append rest e.data_hash l2 h1.2 h2⟩

theorem intactFrom_append_inv : ∀ (l1 : LedgerDb) (expected : String) (l2 : LedgerDb),
    intactFrom expected (l1 ++ l2) →
    intactFrom expected l1 ∧ intactFrom (chainLast expected l1) l2
  | [], _, _, h => ⟨trivial, h⟩
  | e :: rest, expected, l2, h =>
    ⟨⟨h.1, (intactFrom_append_inv rest e.data_hash l2 h.2).1⟩,
     (intactFrom_append_inv rest e.data_hash l2 h.2).2⟩

theorem chainLast_eq_getLastHash : ∀ (db : LedgerDb) (expected : String),
    chainLast expected db =
      match db.getLast? with
      | some e => e.data_hash
      | none => expected
  | [], _ => rfl
  | [e], _ => rfl
  | e :: e2 :: rest, expected => by
    rw [chainLast, chainLast_eq_getLastHash (e2 :: rest) e.data_hash, List.getLast?_cons_cons]
    cases hl : (e2 :: rest).getLast? with
    | none => simp at hl
    | some x => rfl

theorem getLastHash_eq (db : LedgerDb) : getLastHash db = chainLast genesisHash db := by
  rw [getLastHash, chainLast_eq_getLastHash]

/-- The row a successful `add_ledger_entry` call commits. -/
def appendedRow (actor : Option Int) (tag : String) (dd : Json) (hm now : String)
    (db : LedgerDb) : LedgerRow :=
  { id := db.length + 1, timestamp := now, prev_hash := getLastHash db,
    data_hash := createDataHash now (getLastHash db) actor
      (dumpsTotal (ledgerEnvelope tag dd hm now)),
    actor_id := actor, action_type := tag,
    data_text := dumpsTotal (ledgerEnvelope tag dd hm now) }

theorem addLedgerEntry_result (ioOk : Bool) (actor : Option Int) (tag : String) (dd : Json)
    (hm now : String) (db : LedgerDb) :
    (addLedgerEntry ioOk actor tag dd hm now db).1 = db ∨
    (hasBad (ledgerEnvelope tag dd hm now) = false ∧
      (addLedgerEntry ioOk actor tag dd hm now db).1
        = db ++ [appendedRow actor tag dd hm now db]) := by
  by_cases hb : hasBad (ledgerEnvelope tag dd hm now) = true
  · left
    have hd : dumpsCanonical (ledgerEnvelope tag dd hm now) = none := by
      rw [dumpsCanonical, if_pos hb]
    simp only [addLedgerEntry]
    rw [hd]
    rfl
  · have hbf : hasBad (ledgerEnvelope tag dd hm now) = false := by
      cases hx : hasBad (ledgerEnvelope tag dd hm now)
      · rfl
      · exact absurd hx hb
    simp only [addLedgerEntry]
    rw [dumpsCanonical_eq _ hbf]
    show ((match sessionCommit ioOk (sessionAdd ⟨db, []⟩ (appendedRow actor tag dd hm now db)) with
        | .ok s2 => (s2.committed, Except.ok (appendedRow actor tag dd hm now db).data_hash)
        | .error e =>
          ((sessionRollback (sessionAdd ⟨db, []⟩ (appendedRow actor tag dd hm now db))).committed,
            Except.error e)).1 = db) ∨
      (hasBad (ledgerEnvelope tag dd hm now) = false ∧
        (match sessionCommit ioOk (sessionAdd ⟨db, []⟩ (appendedRow actor tag dd hm now db)) with
        | .ok s2 => (s2.committed, Except.ok (appendedRow actor tag dd hm now db).data_hash)
        | .error e =>
          ((sessionRollback (sessionAdd ⟨db, []⟩ (appendedRow actor tag dd hm now db))).committed,
            Except.error e)).1 = db ++ [appendedRow actor tag dd hm now db])
    cases hcs : sessionCommit ioOk (sessionAdd ⟨db, []⟩ (appendedRow actor tag dd hm now db)) with
    | error e => exact Or.inl rfl
    | ok s2 =>
      refine Or.inr ⟨hbf, ?_⟩
      show s2.committed = db ++ [appendedRow actor tag dd hm now db]
      rw [sessionCommit] at hcs
      split at hcs
      · exact Except.noConfusion hcs
      · split at hcs
        · exact Except.noConfusion hcs
        · injection hcs with h2
          rw [← h2]
          rfl

theorem addLedgerEntry_intact (ioOk : Bool) (actor : Option Int) (tag : String) (dd : Json)
    (hm now : String) (db : LedgerDb) (h : intactFrom genesisHash db) :
    intactFrom genesisHash (addLedgerEntry ioOk actor tag dd hm now db).1 := by
  rcases addLedgerEntry_result ioOk actor tag dd hm now db with heq | ⟨hbf, heq⟩
  · rw [heq]; exact h
  · rw [heq]
    refine intactFrom_append db genesisHash _ h ⟨⟨?_, ?_, ?_⟩, trivial⟩
    · show getLastHash db = chainLast genesisHash db
      exact getLastHash_eq db
    · rfl
    · refine jsonStructureChecks_dumps _ tag dd hm now ?_ rfl
      rw [← hasBad_envelope tag dd hm now]
      exact hbf

theorem appendAll_intact : ∀ (calls : List AppendCall) (db : LedgerDb),
    intactFrom genesisHash db → intactFrom genesisHash (appendAll calls db)
  | [], _, h => h
  | c :: cs, db, h => by
    show intactFrom genesisHash (appendAll cs
      (addLedgerEntry true c.actor_id c.action_type c.data_dict c.human_message c.now db).1)
    exact appendAll_intact cs _
      (addLedgerEntry_intact true c.actor_id c.action_type c.data_dict c.human_message c.now db h)

theorem intactFrom_all_digests : ∀ (db : LedgerDb) (expected : String), intactFrom expected db →
    db.all (fun e =>
      e.data_hash == createDataHash e.timestamp e.prev_hash e.actor_id e.data_text) = true
  | [], _, _ => rfl
  | e :: rest, _, h => by
    rw [List.all_cons, intactFrom_all_digests rest e.data_hash h.2]
    have h2 := h.1.2.1
    simp [h2]

/-! ## Verification of a tampered chain -/

theorem verifyFrom_append_ok : ∀ (l1 : LedgerDb) (expected : String) (ds1 : List Discrepancy),
    verifyFrom expected l1 = .ok ds1 → ∀ (l2 : LedgerDb),
    verifyFrom expected (l1 ++ l2) =
      match verifyFrom (chainLast expected l1) l2 with
      | .ok ds2 => .ok (ds1 ++ ds2)
      | .error err => .error err
  | [], expected, ds1, h, l2 => by
    have hds : [] = ds1 :=
      Except.ok.inj (show (Except.ok [] : Except PyError (List Discrepancy)) = .ok ds1 from h)
    subst hds
    show verifyFrom expected l2 =
      match verifyFrom expected l2 with
      | .ok ds2 => Except.ok ([] ++ ds2)
      | .error err => Except.error err
    cases hv : verifyFrom expected l2 with
    | ok ds2 => rfl
    | error err => rfl
  | e :: rest, expected, ds1, h, l2 => by
    rw [verifyFrom] at h
    show verifyFrom expected (e :: (rest ++ l2)) =
      match verifyFrom (chainLast e.data_hash rest) l2 with
      | .ok ds2 => Except.ok (ds1 ++ ds2)
      | .error err => Except.error err
    cases hve : verifyEntry expected e with
    | error err =>
      rw [hve] at h
      exact Except.noConfusion (show Except.error err = Except.ok ds1 from h)
    | ok ds0 =>
      rw [hve] at h
      have h' : (match verifyFrom e.data_hash rest with
        | .error err => Except.error err
        | .ok later => Except.ok (ds0 ++ later)) = .ok ds1 := h
      cases hvr : verifyFrom e.data_hash rest with
      | error err =>
        rw [hvr] at h'
        exact Except.noConfusion (show Except.error err = Except.ok ds1 from h')
      | ok later =>
        rw [hvr] at h'
        have hds : ds0 ++ later = ds1 :=
          Except.ok.inj (show Except.ok (ds0 ++ later) = Except.ok ds1 from h')
        rw [verifyFrom, hve]
        show (match verifyFrom e.data_hash (rest ++ l2) with
          | .error err => Except.error err
          | .ok later2 => Except.ok (ds0 ++ later2)) =
          match verifyFrom (chainLast e.data_hash rest) l2 with
          | .ok ds2 => Except.ok (ds1 ++ ds2)
          | .error err => Except.error err
        rw [verifyFrom_append_ok rest e.data_hash later hvr l2]
        cases hv2 : verifyFrom (chainLast e.data_hash rest) l2 with
        | ok ds2 =>
          show Except.ok (ds0 ++ (later ++ ds2)) = Except.ok (ds1 ++ ds2)
          rw [← hds, List.append_assoc]
        | error err => rfl

theorem list_split_at (db : LedgerDb) (i : Nat) (hi : i < db.length) :
    db = db.take i ++ db[i] :: db.drop (i + 1) := by
  conv_lhs => rw [← List.take_append_drop i db]
  rw [List.drop_eq_getElem_cons hi]

theorem intactFrom_getElem (db : LedgerDb) (h : intactFrom genesisHash db) (i : Nat)
    (hi : i < db.length) : intactRow (chainLast genesisHash (db.take i)) db[i] :=
  (intactFrom_append_inv (db.take i) genesisHash (db[i] :: db.drop (i + 1))
    (list_split_at db i hi ▸ h)).2.1

theorem updateRow_eq : ∀ (db : LedgerDb) (i : Nat) (hi : i < db.length)
    (f : LedgerRow → LedgerRow),
    updateRow db i f = db.take i ++ f db[i] :: db.drop (i + 1)
  | [], _, hi, _ => absurd hi (by simp)
  | e :: rest, 0, _, f => rfl
  | e :: rest, i + 1, hi, f => by
    rw [updateRow, updateRow_eq rest i (Nat.lt_of_succ_lt_succ hi) f]
    rfl

theorem verify_update_detects (db : LedgerDb) (h : intactFrom genesisHash db) (i : Nat)
    (hi : i < db.length) (f : LedgerRow → LedgerRow)
    (hid : (f db[i]).id = db[i].id)
    (hdh : (f db[i]).data_hash = db[i].data_hash)
    (hjs : ∃ js, jsonStructureChecks (f db[i]) = .ok js)
    (hbad : (f db[i]).prev_hash ≠ db[i].prev_hash ∨
      createDataHash (f db[i]).timestamp (f db[i]).prev_hash (f db[i]).actor_id
        (f db[i]).data_text ≠ db[i].data_hash) :
    ∃ ds, verifyLedger (updateRow db i f) = .ok ds ∧ ∃ d ∈ ds, d.entryId = db[i].id := by
  obtain ⟨js, hjsv⟩ := hjs
  have hdec := intactFrom_append_inv (db.take i) genesisHash (db[i] :: db.drop (i + 1))
    (list_split_at db i hi ▸ h)
  have hpre : intactFrom genesisHash (db.take i) := hdec.1
  have hrow : intactRow (chainLast genesisHash (db.take i)) db[i] := hdec.2.1
  have hpost : intactFrom db[i].data_hash (db.drop (i + 1)) := hdec.2.2
  rw [verifyLedger, updateRow_eq db i hi f,
    verifyFrom_append_ok (db.take i) genesisHash [] (verifyFrom_intact _ _ hpre) _,
    verifyFrom, verifyEntry_eq (chainLast genesisHash (db.take i)) (f db[i]) js hjsv,
    hdh, verifyFrom_intact _ _ hpost]
  refine ⟨_, rfl, ?_⟩
  rcases hbad with hp | hh
  · have hpne : (f db[i]).prev_hash ≠ chainLast genesisHash (db.take i) := by
      rw [← hrow.1]; exact hp
    rw [if_pos hpne]
    exact ⟨.prevHashMismatch (f db[i]).id (chainLast genesisHash (db.take i)) (f db[i]).prev_hash,
      by simp, hid⟩
  · have hhne : db[i].data_hash ≠ createDataHash (f db[i]).timestamp (f db[i]).prev_hash
        (f db[i]).actor_id (f db[i]).data_text := Ne.symm hh
    rw [if_pos hhne]
    exact ⟨.hashMismatch (f db[i]).id (createDataHash (f db[i]).timestamp (f db[i]).prev_hash
      (f db[i]).actor_id (f db[i]).data_text) db[i].data_hash, by simp, hid⟩

/-! ## Shape of `get_ledger_entries` results -/

theorem mem_filter_prop {α : Type} (p : α → Bool) (l : List α) (x : α)
    (h : x ∈ l.filter p) : p x = true := List.of_mem_filter h

theorem getLedgerEntries_shape (limit offset : Nat) (t : Option String) (a : Option Int)
    (db : LedgerDb) :
    ∃ q : List LedgerRow, q.Sublist db.reverse ∧
      getLedgerEntries limit offset t a db = (q.drop offset).take limit ∧
      (∀ tg, t = some tg → tg ≠ "" → tg ≠ "All" → ∀ e ∈ q, e.action_type = tg) ∧
      (∀ av, a = some av → 0 < av → ∀ e ∈ q, e.actor_id = some av) := by
  have step1 : ∃ q1 : List LedgerRow, q1.Sublist db.reverse ∧
      (∀ tg, t = some tg → tg ≠ "" → tg ≠ "All" → ∀ e ∈ q1, e.action_type = tg) ∧
      getLedgerEntries limit offset t a db =
        (((match a with
           | some av => if 0 < av then q1.filter (fun (e : LedgerRow) => e.actor_id == some av)
             else q1
           | none => q1) : List LedgerRow).drop offset).take limit := by
    cases t with
    | none =>
      refine ⟨db.reverse, List.Sublist.refl _, ?_, rfl⟩
      intro tg htg
      exact absurd htg (by simp)
    | some tg =>
      have h0 : getLedgerEntries limit offset (some tg) a db =
          (((match a with
            | some av => if 0 < av then
                ((if tg ≠ "" && tg ≠ "All" then
                    db.reverse.filter (fun (e : LedgerRow) => e.action_type == tg)
                  else db.reverse)).filter (fun (e : LedgerRow) => e.actor_id == some av)
              else (if tg ≠ "" && tg ≠ "All" then
                  db.reverse.filter (fun (e : LedgerRow) => e.action_type == tg)
                else db.reverse)
            | none => (if tg ≠ "" && tg ≠ "All" then
                db.reverse.filter (fun (e : LedgerRow) => e.action_type == tg)
              else db.reverse)) : List LedgerRow).drop offset).take limit := rfl
      by_cases hc : (tg ≠ "" && tg ≠ "All") = true
      · refine ⟨db.reverse.filter (fun (e : LedgerRow) => e.action_type == tg),
          List.filter_sublist _, ?_, ?_⟩
        · intro tg2 htg2 _ _ e he
          injection htg2 with hh
          subst hh
          exact eq_of_beq
            (mem_filter_prop (fun (e : LedgerRow) => e.action_type == tg) db.reverse e he)
        · rw [h0, if_pos hc]
      · refine ⟨db.reverse, List.Sublist.refl _, ?_, ?_⟩
        · intro tg2 htg2 hne hnall
          injection htg2 with hh
          subst hh
          exact absurd (by simp [hne, hnall]) hc
        · rw [h0, if_neg hc]
  obtain ⟨q1, hq1sub, hq1tag, hq1eq⟩ := step1
  cases a with
  | none =>
    refine ⟨q1, hq1sub, hq1eq, hq1tag, ?_⟩
    intro av hav
    exact absurd hav (by simp)
  | some av =>
    by_cases hav : (0 : Int) < av
    · refine ⟨q1.filter (fun (e : LedgerRow) => e.actor_id == some av),
        (List.filter_sublist _).trans hq1sub, ?_, ?_, ?_⟩
      · rw [hq1eq]
        show (((if 0 < av then q1.filter (fun (e : LedgerRow) => e.actor_id == some av)
            else q1).drop offset).take limit) = _
        rw [if_pos hav]
      · intro tg htg hne hnall e he
        exact hq1tag tg htg hne hnall e (List.mem_of_mem_filter he)
      · intro av2 hav2 _ e he
        injection hav2 with hh
        subst hh
        exact eq_of_beq
          (mem_filter_prop (fun (e : LedgerRow) => e.actor_id == some av) q1 e he)
    · refine ⟨q1, hq1sub, ?_, hq1tag, ?_⟩
      · rw [hq1eq]
        show (((if 0 < av then q1.filter (fun (e : LedgerRow) => e.actor_id == some av)
            else q1).drop offset).take limit) = _
        rw [if_neg hav]
      · intro av2 hav2 hpos
        injection hav2 with hh
        subst hh
        exact absurd hpos hav
/-- C1: for every entry the stored digest is `create_data_hash` of its
fields, which equals the spec's formula — lowercase hex SHA-256 of the UTF-8
bytes of `f"{timestamp}|{prev_digest}|{actor_id or ''}|{canonical_json}"` —
and the digest is 64 lowercase-hex characters. -/
theorem create_data_hash_matches_spec (t p : String) (a : Option Int) (d : String) :
    createDataHash t p a d = specDigest t p a d ∧
    (createDataHash t p a d).length = 64 ∧
    ((createDataHash t p a d).data.all hexAlphabet.contains) = true := by
  refine ⟨rfl, ?_, ?_⟩
  · exact (sha256hex_shape _).1
  · exact (sha256hex_shape _).2

/-- C10: the digest renders actor `0` and an absent actor identically
(`actor_id or ''` is empty for both), so the two are hash-indistinguishable. -/
theorem create_data_hash_actor_zero_eq_none (t p d : String) :
    createDataHash t p (some 0) d = createDataHash t p none d := rfl

/-- C6: a failed append (canonicalization error or commit fault) leaves the
visible table exactly as it was — rollback discards the pending row — and
the error is re-raised to the caller, never swallowed. -/
theorem failed_append_leaves_ledger_unchanged (ioOk : Bool) (actor : Option Int)
    (tag : String) (dd : Json) (hm now : String) (db : LedgerDb) :
    (∀ err, (addLedgerEntry ioOk actor tag dd hm now db).2 = .error err →
        (addLedgerEntry ioOk actor tag dd hm now db).1 = db) ∧
    (ioOk = false → ∃ err, (addLedgerEntry ioOk actor tag dd hm now db).2 = .error err) := by
  constructor
  · intro err herr
    unfold addLedgerEntry at herr ⊢
    cases hd : dumpsCanonical (ledgerEnvelope tag dd hm now) with
    | none => simp [hd, sessionRollback]
    | some dt =>
      simp only [hd] at herr ⊢
      cases hc : sessionCommit ioOk (sessionAdd ⟨db, []⟩ _) with
      | ok s2 => simp [hc] at herr
      | error e2 => simp [hc, sessionRollback, sessionAdd]
  · intro hio
    subst hio
    unfold addLedgerEntry
    cases hd : dumpsCanonical (ledgerEnvelope tag dd hm now) with
    | none => exact ⟨.typeError, by simp [hd]⟩
    | some dt => exact ⟨.storageError, by simp [hd, sessionCommit]⟩

/-- C6 witness: a concrete append with an injected commit fault returns the
error and leaves the (empty) table empty. -/
theorem failed_append_leaves_ledger_unchanged_witness :
    (addLedgerEntry false (some 1) "expense" (Json.obj []) "m" "t" []).1 = [] ∧
    (∃ err, (addLedgerEntry false (some 1) "expense" (Json.obj []) "m" "t" []).2 = .error err) :=
  ⟨(failed_append_leaves_ledger_unchanged false (some 1) "expense"
      (Json.obj []) "m" "t" []).1 .storageError (by decide),
   (failed_append_leaves_ledger_unchanged false (some 1) "expense"
      (Json.obj []) "m" "t" []).2 rfl⟩

/-- The `data_text` CPython's `json.dumps` produces for the NaN payload of
the C7 evidence below (`allow_nan=True` emits the bare token `NaN`). -/
def nanDataText : String :=
  "\x7b\"action_type\":\"expense\",\"human_message\":\"\",\"payload\":\x7b\"amount\":NaN\x7d,\"timestamp\":\"t\"\x7d"

/-- C7: a payload containing the float NaN is NOT rejected: `json.dumps`
under its default `allow_nan=True` serializes it as the bare token `NaN`,
the entry is committed, its digest is returned, and `verify()` later reports
nothing — contradicting the claimed fatal input error. -/
theorem nan_payload_appended_silently :
    (addLedgerEntry true (some 1) "expense" (Json.obj [("amount", Json.nan)]) "" "t" []).2 =
      .ok (createDataHash "t" genesisHash (some 1) nanDataText) ∧
    (addLedgerEntry true (some 1) "expense" (Json.obj [("amount", Json.nan)]) "" "t" []).1 =
      [{ id := 1, timestamp := "t", prev_hash := genesisHash,
         data_hash := createDataHash "t" genesisHash (some 1) nanDataText,
         actor_id := some 1, action_type := "expense", data_text := nanDataText }] ∧
    verifyLedger
      (addLedgerEntry true (some 1) "expense" (Json.obj [("amount", Json.nan)]) "" "t" []).1 =
      .ok [] := by decide

/-- C4: `verify_ledger` can raise mid-walk: on an entry whose `data_text`
was tampered to `"42"` (valid JSON, not a container), the structure check
`'action_type' not in data` raises an uncaught `TypeError`, aborting the
whole run and losing every discrepancy collected so far. -/
theorem verify_raises_on_noncontainer_data_text :
    verifyLedger (updateRow (appendAll
      [⟨some 1, "expense", Json.obj [("amount", Json.num 3)], "m1", "t1"⟩,
       ⟨some 2, "user_action", Json.obj [("a", Json.str "b")], "m2", "t2"⟩] []) 0
      (fun e => { e with data_text := "42" })) = .error .typeError := by decide

/-- C5: the schedule read₀-read₁-commit₀-commit₁ of two concurrent appends
(possible because `get_last_hash` runs in its own session with no lock, and
nothing serializes the read-then-insert pair) commits two entries that both
name the genesis value as predecessor: a fork with a shared `prev_digest`. -/
theorem interleaved_appends_fork_chain :
    (runSchedule
      [⟨some 1, "refill_transaction", Json.obj [("x", Json.num 1)], "", "t1"⟩,
       ⟨some 2, "expense", Json.obj [("y", Json.num 2)], "", "t2"⟩]
      [.readLast 0, .readLast 1, .commitEntry 0, .commitEntry 1]).db.map
        (fun e => (e.id, e.prev_hash)) = [(1, genesisHash), (2, genesisHash)] := by decide

/-- C2 counterexample: replacing a `None` actor reference by actor `0` is a
tamper (`db' ≠ db`) that `verify()` does not report, because the hash input
renders both as the empty string — so an empty report does not imply the
chain is untampered. -/
theorem verify_accepts_actor_zero_tamper :
    updateRow (appendAll [⟨none, "expense", Json.obj [("amount", Json.num 3)], "m", "t1"⟩] []) 0
        (fun e => { e with actor_id := some 0 }) ≠
      appendAll [⟨none, "expense", Json.obj [("amount", Json.num 3)], "m", "t1"⟩] [] ∧
    verifyLedger
      (updateRow (appendAll [⟨none, "expense", Json.obj [("amount", Json.num 3)], "m", "t1"⟩] []) 0
        (fun e => { e with actor_id := some 0 })) = .ok [] := by decide

/-- C3 counterexample: changing the stored `action_type` column of an entry
to a different value is not reported by `verify()` at all — the digest is
computed over `data_text` (which holds its own copy of the action tag), and
no check reads the column. -/
theorem verify_accepts_action_type_tamper :
    updateRow (appendAll [⟨some 1, "expense", Json.obj [], "", "t1"⟩] []) 0
        (fun e => { e with action_type := "refill_transaction" }) ≠
      appendAll [⟨some 1, "expense", Json.obj [], "", "t1"⟩] [] ∧
    verifyLedger
      (updateRow (appendAll [⟨some 1, "expense", Json.obj [], "", "t1"⟩] []) 0
        (fun e => { e with action_type := "refill_transaction" })) = .ok [] := by decide

/-- C8 counterexample: two exports of the same unchanged (empty) chain and
the same (absent) range taken at different clock readings produce different
`proof_hash` values, because the hashed proof object embeds
`export_timestamp`. -/
theorem proof_hash_changes_with_export_time :
    (exportLedgerProof "2024-01-01T00:00:00Z" none none []).proof_hash ≠
      (exportLedgerProof "2024-01-02T00:00:00Z" none none []).proof_hash := by decide

/-- C8 (amended): `proof_hash` is a function of the captured export
timestamp, the filter bounds, and the entries in range alone — so two calls
agreeing on those (in particular, two calls on an unchanged range whose
clock readings coincide) yield byte-identical `proof_hash` values. -/
theorem proof_hash_depends_only_on_range (now : String) (sd ed : Option String)
    (db1 db2 : LedgerDb) (h : exportFilter sd ed db1 = exportFilter sd ed db2) :
    (exportLedgerProof now sd ed db1).proof_hash =
      (exportLedgerProof now sd ed db2).proof_hash := by
  simp only [exportLedgerProof, proofBody, h]

/-- A row outside the filtered range of the C8 witness. -/
def wRow : LedgerRow :=
  { id := 1, timestamp := "2020-01-01T00:00:00Z", prev_hash := genesisHash,
    data_hash := "h1", actor_id := none, action_type := "expense", data_text := "[]" }

/-- C8 witness: two stores differing in an out-of-range row export the same
`proof_hash` for the same range and clock reading. -/
theorem proof_hash_depends_only_on_range_witness :
    (exportLedgerProof "T" (some "2024-01-01") none []).proof_hash =
      (exportLedgerProof "T" (some "2024-01-01") none [wRow]).proof_hash :=
  proof_hash_depends_only_on_range "T" (some "2024-01-01") none [] [wRow] (by decide)

/-- C2 (amended, the direction that holds): every chain produced solely by
successive `add_ledger_entry` calls — any actors, tags, payloads and clock
readings, including failing calls — has every stored digest reproduced
exactly by recomputing `create_data_hash` over the entry's stored fields,
and `verify_ledger` returns an empty discrepancy list on it.  (The converse
direction of the claim is refuted separately: see
`verify_accepts_actor_zero_tamper`.) -/
theorem append_only_chain_verifies_clean (calls : List AppendCall) :
    ((appendAll calls []).all (fun e =>
        e.data_hash == createDataHash e.timestamp e.prev_hash e.actor_id e.data_text)) = true ∧
    verifyLedger (appendAll calls []) = .ok [] := by
  have h := appendAll_intact calls [] trivial
  exact ⟨intactFrom_all_digests _ _ h, verifyFrom_intact _ _ h⟩

/-- C3 (amended): on an append-built chain, changing exactly one stored
column of one entry is reported with that entry's id — for `timestamp`,
`data_text` and `actor_id` provided the recomputed digest differs from the
stored one (and, for `data_text`, the structure check does not raise), and
for `prev_hash` whenever the new value differs.  The `action_type` column is
the exception: see `verify_accepts_action_type_tamper`. -/
theorem single_field_tamper_detected (calls : List AppendCall) (i : Nat)
    (hi : i < (appendAll calls []).length) :
    (∀ t', createDataHash t' ((appendAll calls [])[i]).prev_hash
        ((appendAll calls [])[i]).actor_id ((appendAll calls [])[i]).data_text
        ≠ ((appendAll calls [])[i]).data_hash →
      ∃ ds, verifyLedger (updateRow (appendAll calls []) i
          (fun r => { r with timestamp := t' })) = .ok ds ∧
        ∃ d ∈ ds, d.entryId = ((appendAll calls [])[i]).id) ∧
    (∀ p', p' ≠ ((appendAll calls [])[i]).prev_hash →
      ∃ ds, verifyLedger (updateRow (appendAll calls []) i
          (fun r => { r with prev_hash := p' })) = .ok ds ∧
        ∃ d ∈ ds, d.entryId = ((appendAll calls [])[i]).id) ∧
    (∀ d', createDataHash ((appendAll calls [])[i]).timestamp
        ((appendAll calls [])[i]).prev_hash ((appendAll calls [])[i]).actor_id d'
        ≠ ((appendAll calls [])[i]).data_hash →
      (∃ js, jsonStructureChecks { (appendAll calls [])[i] with data_text := d' } = .ok js) →
      ∃ ds, verifyLedger (updateRow (appendAll calls []) i
          (fun r => { r with data_text := d' })) = .ok ds ∧
        ∃ d ∈ ds, d.entryId = ((appendAll calls [])[i]).id) ∧
    (∀ a', createDataHash ((appendAll calls [])[i]).timestamp
        ((appendAll calls [])[i]).prev_hash a' ((appendAll calls [])[i]).data_text
        ≠ ((appendAll calls [])[i]).data_hash →
      ∃ ds, verifyLedger (updateRow (appendAll calls []) i
          (fun r => { r with actor_id := a' })) = .ok ds ∧
        ∃ d ∈ ds, d.entryId = ((appendAll calls [])[i]).id) := by
  have hint := appendAll_intact calls [] trivial
  have hrowI := intactFrom_getElem (appendAll calls []) hint i hi
  refine ⟨?_, ?_, ?_, ?_⟩
  · intro t' ht'
    exact verify_update_detects (appendAll calls []) hint i hi
      (fun r => { r with timestamp := t' }) rfl rfl ⟨[], hrowI.2.2⟩ (Or.inr ht')
  · intro p' hp'
    exact verify_update_detects (appendAll calls []) hint i hi
      (fun r => { r with prev_hash := p' }) rfl rfl ⟨[], hrowI.2.2⟩ (Or.inl hp')
  · intro d' hd' hjs
    exact verify_update_detects (appendAll calls []) hint i hi
      (fun r => { r with data_text := d' }) rfl rfl hjs (Or.inr hd')
  · intro a' ha'
    exact verify_update_detects (appendAll calls []) hint i hi
      (fun r => { r with actor_id := a' }) rfl rfl ⟨[], hrowI.2.2⟩ (Or.inr ha')

/-- A concrete append call used to witness the tamper-detection theorem. -/
def tamperCall : AppendCall :=
  ⟨some 3, "expense", .obj [("amount", .num 120)], "supplies", "2024-05-05T10:00:00Z"⟩

/-- C3 witness: on the one-entry chain appended by `tamperCall`, each of the
four mutations — timestamp, prev_hash, data_text, actor_id — is reported
with the entry's id. -/
theorem single_field_tamper_detected_witness :
    (∃ ds, verifyLedger (updateRow (appendAll [tamperCall] []) 0
        (fun r => { r with timestamp := "2024-05-05T11:11:11Z" })) = .ok ds ∧
      ∃ d ∈ ds, d.entryId = ((appendAll [tamperCall] []).get ⟨0, by decide⟩).id) ∧
    (∃ ds, verifyLedger (updateRow (appendAll [tamperCall] []) 0
        (fun r => { r with prev_hash := "deadbeef" })) = .ok ds ∧
      ∃ d ∈ ds, d.entryId = ((appendAll [tamperCall] []).get ⟨0, by decide⟩).id) ∧
    (∃ ds, verifyLedger (updateRow (appendAll [tamperCall] []) 0
        (fun r => { r with data_text := "[]" })) = .ok ds ∧
      ∃ d ∈ ds, d.entryId = ((appendAll [tamperCall] []).get ⟨0, by decide⟩).id) ∧
    (∃ ds, verifyLedger (updateRow (appendAll [tamperCall] []) 0
        (fun r => { r with actor_id := some 9 })) = .ok ds ∧
      ∃ d ∈ ds, d.entryId = ((appendAll [tamperCall] []).get ⟨0, by decide⟩).id) := by
  obtain ⟨c1, c2, c3, c4⟩ := single_field_tamper_detected [tamperCall] 0 (by decide)
  exact ⟨c1 "2024-05-05T11:11:11Z" (by decide), c2 "deadbeef" (by decide),
    c3 "[]" (by decide) ⟨_, rfl⟩, c4 (some 9) (by decide)⟩

/-- The three appends of the C9 scenario: tags `refill_transaction`,
`expense`, `inventory_change` on an empty chain. -/
def c9Calls : List AppendCall :=
  [⟨some 7, "refill_transaction", .obj [("gallons", .num 10)], "refill", "2024-06-01T08:00:00Z"⟩,
   ⟨some 7, "expense", .obj [("amount", .num 45)], "ice", "2024-06-01T09:00:00Z"⟩,
   ⟨some 8, "inventory_change", .obj [("item", .str "bottle")], "restock", "2024-06-01T10:00:00Z"⟩]

/-- C9: `get_ledger_entries` returns rows in descending id order, paginated
by `limit`, drawn from the table, satisfying the action-type filter (when the
tag is truthy and not the `"All"` sentinel) and the actor filter (when the id
is positive); and in the three-append scenario, `verify()` is clean and the
`expense` query returns exactly the second entry. -/
theorem ledger_query_order_filter_scenario (limit offset : Nat) (tag : String) (aid : Int)
    (db : LedgerDb) (hs : db.Pairwise (fun a b => a.id < b.id)) :
    ((getLedgerEntries limit offset (some tag) (some aid) db).Pairwise
        (fun a b => b.id < a.id) ∧
     (getLedgerEntries limit offset (some tag) (some aid) db).length ≤ limit ∧
     (∀ e ∈ getLedgerEntries limit offset (some tag) (some aid) db, e ∈ db) ∧
     (tag ≠ "" → tag ≠ "All" →
       ∀ e ∈ getLedgerEntries limit offset (some tag) (some aid) db, e.action_type = tag) ∧
     (0 < aid →
       ∀ e ∈ getLedgerEntries limit offset (some tag) (some aid) db, e.actor_id = some aid)) ∧
    (verifyLedger (appendAll c9Calls []) = .ok [] ∧
     getLedgerEntries 100 0 (some "expense") none (appendAll c9Calls []) =
       ((appendAll c9Calls []).drop 1).take 1) := by
  obtain ⟨q, hsub, heq, hact, hactor⟩ := getLedgerEntries_shape limit offset (some tag) (some aid) db
  have hqp : q.Pairwise (fun a b : LedgerRow => b.id < a.id) := by
    refine List.Pairwise.sublist hsub ?_
    rw [List.pairwise_reverse]
    exact hs
  have hsub2 : (getLedgerEntries limit offset (some tag) (some aid) db).Sublist q := by
    rw [heq]
    exact (List.take_sublist _ _).trans (List.drop_sublist _ _)
  constructor
  · refine ⟨List.Pairwise.sublist hsub2 hqp, ?_, ?_, ?_, ?_⟩
    · rw [heq]
      exact List.length_take_le _ _
    · intro e he
      exact List.mem_reverse.1 (hsub.subset (hsub2.subset he))
    · intro hne hnall e he
      exact hact tag rfl hne hnall e (hsub2.subset he)
    · intro hpos e he
      exact hactor aid rfl hpos e (hsub2.subset he)
  · exact ⟨by decide, by decide⟩

/-- C9 witness: the parametric conclusion instantiated on the scenario chain
with `limit 2`, `offset 0`, tag `"expense"`, actor `7`. -/
theorem ledger_query_order_filter_scenario_witness :
    ((getLedgerEntries 2 0 (some "expense") (some 7) (appendAll c9Calls [])).Pairwise
        (fun a b => b.id < a.id) ∧
     (getLedgerEntries 2 0 (some "expense") (some 7) (appendAll c9Calls [])).length ≤ 2 ∧
     (∀ e ∈ getLedgerEntries 2 0 (some "expense") (some 7) (appendAll c9Calls []),
       e ∈ appendAll c9Calls []) ∧
     (("expense" : String) ≠ "" → ("expense" : String) ≠ "All" →
       ∀ e ∈ getLedgerEntries 2 0 (some "expense") (some 7) (appendAll c9Calls []),
         e.action_type = "expense") ∧
     ((0 : Int) < 7 →
       ∀ e ∈ getLedgerEntries 2 0 (some "expense") (some 7) (appendAll c9Calls []),
         e.actor_id = some 7)) ∧
    (verifyLedger (appendAll c9Calls []) = .ok [] ∧
     getLedgerEntries 100 0 (some "expense") none (appendAll c9Calls []) =
       ((appendAll c9Calls []).drop 1).take 1) :=
  ledger_query_order_filter_scenario 2 0 "expense" 7 (appendAll c9Calls []) (by decide)

end HydroHub
